import Mathlib

/-!
# Verification of the fidget interval-evaluation core

Shallow embedding of `fidget-core/src/eval/interval.rs` (the `Interval` type
and its arithmetic), of the branch structure of the JIT interval assembler in
`fidget/src/jit/interval.rs`, and of the surrounding evaluator machinery
(expressions, point evaluation, choice trails, tape simplification,
subdivided evaluation, storage reclamation).

`f32` values are modelled by the type `F32` below: quiet NaN, the two
infinities, and finite values represented exactly as rationals.  Rounding is
deliberately ignored — the specification declares rounding-correct interval
arithmetic a non-goal, and the source file itself warns that it does not set
rounding modes.  The hardware square root is modelled by a monotone,
nonnegative approximation (`fsqrtQ`), which is all the proofs rely on.
-/

namespace Fidget

/-- Kernel-computable rational addition (the library `Rat.add` is
`@[irreducible]`; this normalized form lets witnesses evaluate by `decide`). -/
def qadd (a b : ℚ) : ℚ := mkRat (a.num * b.den + b.num * a.den) (a.den * b.den)

/-- Kernel-computable rational multiplication. -/
def qmul (a b : ℚ) : ℚ := mkRat (a.num * b.num) (a.den * b.den)

/-- Kernel-computable rational halving. -/
def qhalf (a : ℚ) : ℚ := mkRat a.num (a.den * 2)

/-- Kernel-computable rational absolute value. -/
def qabs (a : ℚ) : ℚ := if a.num < 0 then -a else a

/-- Kernel-computable rational inverse. -/
def qinv (a : ℚ) : ℚ :=
  if a.num < 0 then mkRat (-(a.den : ℤ)) a.num.natAbs else mkRat a.den a.num.natAbs

/-- Choice emitted by interval `min`/`max`.  The encoding (spec §3:
`Unknown (00)`, `Left (01)`, `Right (10)`, `Both (11)`) lives in code that is
not part of the sources, so the bit values are modelled from the spec. -/
inductive Choice where
  | Unknown : Choice
  | Left : Choice
  | Right : Choice
  | Both : Choice
deriving DecidableEq

/-- Bitwise OR of two choices, as the JIT code's `orr` on the 2-bit encoding. -/
def Choice.orc : Choice → Choice → Choice
  | .Unknown, c => c
  | c, .Unknown => c
  | .Both, _ => .Both
  | _, .Both => .Both
  | .Left, .Left => .Left
  | .Right, .Right => .Right
  | .Left, .Right => .Both
  | .Right, .Left => .Both

/-- Is this choice `Left` or `Right` (a pruning opportunity)? -/
def Choice.isLR : Choice → Bool
  | .Left => true
  | .Right => true
  | _ => false

/-- Model of an `f32` value: NaN, ±∞, or an exact finite value. -/
inductive F32 where
  | nan : F32
  | ninf : F32
  | fin : ℚ → F32
  | inf : F32
deriving DecidableEq

namespace F32

/-- IEEE `<=` on f32: false whenever an operand is NaN. -/
def le : F32 → F32 → Bool
  | nan, _ => false
  | _, nan => false
  | ninf, _ => true
  | _, inf => true
  | fin p, fin q => decide (p ≤ q)
  | _, ninf => false
  | inf, fin _ => false

/-- IEEE `<` on f32: false whenever an operand is NaN. -/
def lt : F32 → F32 → Bool
  | nan, _ => false
  | _, nan => false
  | ninf, ninf => false
  | ninf, _ => true
  | inf, _ => false
  | _, ninf => false
  | fin p, fin q => decide (p < q)
  | fin _, inf => true

/-- IEEE negation. -/
def neg : F32 → F32
  | nan => nan
  | ninf => inf
  | inf => ninf
  | fin q => fin (-q)

/-- IEEE addition (exact on finite values): NaN propagates, `∞ + (−∞) = NaN`. -/
def add : F32 → F32 → F32
  | nan, _ => nan
  | _, nan => nan
  | inf, ninf => nan
  | ninf, inf => nan
  | inf, _ => inf
  | _, inf => inf
  | ninf, _ => ninf
  | _, ninf => ninf
  | fin p, fin q => fin (qadd p q)

/-- IEEE subtraction, `x − y = x + (−y)` exactly in this model. -/
def sub (x y : F32) : F32 := add x (neg y)

/-- IEEE multiplication (exact on finite values): NaN propagates,
`0 × ±∞ = NaN`, otherwise signs multiply. -/
def mul : F32 → F32 → F32
  | nan, _ => nan
  | _, nan => nan
  | inf, inf => inf
  | inf, ninf => ninf
  | ninf, inf => ninf
  | ninf, ninf => inf
  | inf, fin q => if q = 0 then nan else if 0 < q then inf else ninf
  | fin p, inf => if p = 0 then nan else if 0 < p then inf else ninf
  | ninf, fin q => if q = 0 then nan else if 0 < q then ninf else inf
  | fin p, ninf => if p = 0 then nan else if 0 < p then ninf else inf
  | fin p, fin q => fin (qmul p q)

/-- IEEE absolute value. -/
def abs : F32 → F32
  | nan => nan
  | ninf => inf
  | inf => inf
  | fin q => fin (qabs q)

/-- Model of the hardware f32 square root on finite nonnegative inputs:
a monotone nonnegative approximation (integer square root of the floor).
Only monotonicity, nonnegativity and exactness at perfect squares are used;
the spec declares rounding-correctness a non-goal. -/
def fsqrtQ (q : ℚ) : ℚ := (Nat.sqrt ⌊q⌋₊ : ℚ)

/-- IEEE square root: NaN for negative arguments (and NaN), `√∞ = ∞`. -/
def sqrt : F32 → F32
  | nan => nan
  | ninf => nan
  | inf => inf
  | fin q => if q < 0 then nan else fin (fsqrtQ q)

/-- IEEE reciprocal `1/x` (sign of zero ignored): `1/±∞ = 0`, `1/0 = ∞`. -/
def inv : F32 → F32
  | nan => nan
  | ninf => fin 0
  | inf => fin 0
  | fin q => if q = 0 then inf else fin (qinv q)

/-- IEEE halving `x / 2.0` (exact). -/
def half : F32 → F32
  | nan => nan
  | ninf => ninf
  | inf => inf
  | fin q => fin (qhalf q)

/-- Rust `f32::min`: if one argument is NaN the *other* is returned. -/
def fmin (x y : F32) : F32 :=
  if x = nan then y else if y = nan then x else if le x y then x else y

/-- Rust `f32::max`: if one argument is NaN the *other* is returned. -/
def fmax (x y : F32) : F32 :=
  if x = nan then y else if y = nan then x else if le x y then y else x

/-- AArch64 `fmin` (used by the JIT `both` branch): NaN propagates. -/
def fminA (x y : F32) : F32 :=
  if x = nan ∨ y = nan then nan else if le x y then x else y

/-- AArch64 `fmax` (used by the JIT `both` branch): NaN propagates. -/
def fmaxA (x y : F32) : F32 :=
  if x = nan ∨ y = nan then nan else if le x y then y else x

/-- Modelled from the spec: the point evaluator is not among the sources;
per spec §7 NaN "propagates through arithmetic naturally", so the pointwise
`min` propagates NaN. -/
def pmin (x y : F32) : F32 :=
  if x = nan ∨ y = nan then nan else if le x y then x else y

/-- Modelled from the spec: pointwise `max`, NaN-propagating (spec §7). -/
def pmax (x y : F32) : F32 :=
  if x = nan ∨ y = nan then nan else if le x y then y else x

end F32

/-- `Interval` from `fidget-core/src/eval/interval.rs`: a pair of `f32`
bounds.  The constructor's assertion is modelled by `Interval.okNew` below
rather than baked into the type, so that the assertion's behaviour is itself
provable. -/
structure Interval where
  lower : F32
  upper : F32
deriving DecidableEq

namespace Interval

/-- The assertion of `Interval::new`: `upper >= lower || (both NaN)`. -/
def okNew (i : Interval) : Bool :=
  F32.le i.lower i.upper || (i.lower == F32.nan && i.upper == F32.nan)

/-- A "real" interval: `lower ≤ upper` holds as an f32 comparison
(this excludes NaN bounds but allows infinite ones).  The spec calls
`(NaN, NaN)` the "empty/invalid" result, so these are the valid intervals. -/
def real (i : Interval) : Bool := F32.le i.lower i.upper

/-- A finite valid interval: both bounds finite with `lower ≤ upper`. -/
def fv : Interval → Bool
  | ⟨F32.fin a, F32.fin b⟩ => decide (a ≤ b)
  | _ => false

/-- Neither bound is NaN. -/
def noNaN (i : Interval) : Bool :=
  !(i.lower == F32.nan) && !(i.upper == F32.nan)

/-- Membership of an f32 point, treating a NaN bound as permitting any
value (spec §8). -/
def containsF (i : Interval) (x : F32) : Bool :=
  (i.lower == F32.nan || F32.le i.lower x) &&
  (i.upper == F32.nan || F32.le x i.upper)

/-- Interval containment `i ⊆ j`, treating a NaN bound of `j` as permitting
any value (spec §8). -/
def subsetI (i j : Interval) : Bool :=
  (j.lower == F32.nan || F32.le j.lower i.lower) &&
  (j.upper == F32.nan || F32.le i.upper j.upper)

/-- `Interval::abs` (interval.rs lines 34–44). -/
def abs (i : Interval) : Interval :=
  if F32.lt i.lower (F32.fin 0) then
    if F32.lt (F32.fin 0) i.upper then
      ⟨F32.fin 0, F32.fmax i.upper (F32.neg i.lower)⟩
    else
      ⟨F32.neg i.upper, F32.neg i.lower⟩
  else i

/-- `Interval::sqrt` (interval.rs lines 45–55). -/
def sqrt (i : Interval) : Interval :=
  if F32.lt i.lower (F32.fin 0) then
    if F32.lt (F32.fin 0) i.upper then
      ⟨F32.fin 0, F32.sqrt i.upper⟩
    else
      ⟨F32.nan, F32.nan⟩
  else ⟨F32.sqrt i.lower, F32.sqrt i.upper⟩

/-- `Interval::recip` (interval.rs lines 56–58) is `todo!()`: it panics on
every input, modelled by `none`. -/
def recip : Interval → Option Interval := fun _ => none

/-- `Interval::min_choice` (interval.rs lines 59–71). -/
def min_choice (i j : Interval) : Interval × Choice :=
  (⟨F32.fmin i.lower j.lower, F32.fmin i.upper j.upper⟩,
   if F32.lt i.upper j.lower then Choice.Left
   else if F32.lt j.upper i.lower then Choice.Right
   else Choice.Both)

/-- `Interval::max_choice` (interval.rs lines 72–84). -/
def max_choice (i j : Interval) : Interval × Choice :=
  (⟨F32.fmax i.lower j.lower, F32.fmax i.upper j.upper⟩,
   if F32.lt j.upper i.lower then Choice.Left
   else if F32.lt i.upper j.lower then Choice.Right
   else Choice.Both)

/-- `impl Add for Interval` (interval.rs lines 93–98). -/
def add (i j : Interval) : Interval :=
  ⟨F32.add i.lower j.lower, F32.add i.upper j.upper⟩

/-- `impl Mul for Interval` (interval.rs lines 100–119): the four cross
products, folded with Rust `min`/`max` starting from the first product. -/
def mul (i j : Interval) : Interval :=
  ⟨F32.fmin (F32.fmin (F32.fmin (F32.mul i.lower j.lower)
      (F32.mul i.lower j.upper)) (F32.mul i.upper j.lower))
      (F32.mul i.upper j.upper),
   F32.fmax (F32.fmax (F32.fmax (F32.mul i.lower j.lower)
      (F32.mul i.lower j.upper)) (F32.mul i.upper j.lower))
      (F32.mul i.upper j.upper)⟩

/-- `impl Sub for Interval` (interval.rs lines 121–126). -/
def sub (i j : Interval) : Interval :=
  ⟨F32.sub i.lower j.upper, F32.sub i.upper j.lower⟩

/-- `impl Neg for Interval` (interval.rs lines 128–133). -/
def neg (i : Interval) : Interval :=
  ⟨F32.neg i.upper, F32.neg i.lower⟩

/-- `IntervalAssembler::build_min` (jit/interval.rs lines 372–420): the
emitted code first tests `lhs.lower > rhs.upper` (→ rhs, `Right`), then
`rhs.lower > lhs.upper` (→ lhs, `Left`), else lane-wise AArch64 `fmin`. -/
def minJit (i j : Interval) : Interval × Choice :=
  if F32.lt j.upper i.lower then (j, Choice.Right)
  else if F32.lt i.upper j.lower then (i, Choice.Left)
  else (⟨F32.fminA i.lower j.lower, F32.fminA i.upper j.upper⟩, Choice.Both)

/-- `IntervalAssembler::build_max` (jit/interval.rs lines 337–371): the
emitted code first tests `lhs.lower > rhs.upper` (→ lhs, `Left`), then
`rhs.lower > lhs.upper` (→ rhs, `Right`), else lane-wise AArch64 `fmax`. -/
def maxJit (i j : Interval) : Interval × Choice :=
  if F32.lt j.upper i.lower then (i, Choice.Left)
  else if F32.lt i.upper j.lower then (j, Choice.Right)
  else (⟨F32.fmaxA i.lower j.lower, F32.fmaxA i.upper j.upper⟩, Choice.Both)

/-- `IntervalAssembler::build_sqrt` (jit/interval.rs lines 158–190): the
emitted code tests `upper ≤ 0` (→ NaN), then `lower ≤ 0` (→ `[0, √upper]`),
else the happy path `[√lower, √upper]`. -/
def sqrtJit (i : Interval) : Interval :=
  if F32.le i.upper (F32.fin 0) then ⟨F32.nan, F32.nan⟩
  else if F32.le i.lower (F32.fin 0) then ⟨F32.fin 0, F32.sqrt i.upper⟩
  else ⟨F32.sqrt i.lower, F32.sqrt i.upper⟩

/-- `IntervalAssembler::build_recip` (jit/interval.rs lines 131–157): the
emitted code tests `lower > 0` (→ ok), then `upper < 0` (→ ok), else NaN;
the ok path divides `[1,1]` lane-wise by the interval and swaps lanes,
giving `[1/upper, 1/lower]`. -/
def recipJit (i : Interval) : Interval :=
  if F32.lt (F32.fin 0) i.lower then ⟨F32.inv i.upper, F32.inv i.lower⟩
  else if F32.lt i.upper (F32.fin 0) then ⟨F32.inv i.upper, F32.inv i.lower⟩
  else ⟨F32.nan, F32.nan⟩

/-- `IntervalAssembler::build_neg` (jit/interval.rs lines 91–96): the
emitted code negates both lanes (`fneg`) and swaps them (`rev64`), giving
`[-upper, -lower]`. -/
def negJit (i : Interval) : Interval :=
  ⟨F32.neg i.upper, F32.neg i.lower⟩

/-- `IntervalAssembler::build_abs` (jit/interval.rs lines 97–130): the
emitted code computes `fabs` of both lanes, then tests `upper ≤ 0` (`fcmle`
lane 1 → swap the two absolute values), then `lower ≤ 0` (→ `[0, m]` where
`m` is the `fmaxnm` reduction over the lanes `[|lower|, |upper|, 0, 0]`,
folded here with the two zero lanes collapsed into one since `fmaxnm` is
NaN-ignoring and idempotent on equal lanes), else the lane-wise absolute
values unchanged. -/
def absJit (i : Interval) : Interval :=
  if F32.le i.upper (F32.fin 0) then ⟨F32.abs i.upper, F32.abs i.lower⟩
  else if F32.le i.lower (F32.fin 0) then
    ⟨F32.fin 0, F32.fmax (F32.fmax (F32.abs i.lower) (F32.abs i.upper))
      (F32.fin 0)⟩
  else ⟨F32.abs i.lower, F32.abs i.upper⟩

/-- `IntervalAssembler::build_add` (jit/interval.rs lines 219–223): the
emitted code is a lane-wise `fadd`. -/
def addJit (i j : Interval) : Interval :=
  ⟨F32.add i.lower j.lower, F32.add i.upper j.upper⟩

/-- `IntervalAssembler::build_sub` (jit/interval.rs lines 224–229): the
emitted code swaps the rhs lanes (`rev64`) and does a lane-wise `fsub`,
giving `[lhs.lower − rhs.upper, lhs.upper − rhs.lower]`. -/
def subJit (i j : Interval) : Interval :=
  ⟨F32.sub i.lower j.upper, F32.sub i.upper j.lower⟩

/-- `IntervalAssembler::build_mul` (jit/interval.rs lines 236–255): the
emitted code forms the four cross products, in lane order
`[upper·lower, lower·upper, lower·lower, upper·upper]`, and reduces them
with `fminnmv`/`fmaxnmv`; the NaN-ignoring reductions are modelled as folds
of the NaN-ignoring binary `fmin`/`fmax` in that lane order. -/
def mulJit (i j : Interval) : Interval :=
  ⟨F32.fmin (F32.fmin (F32.fmin (F32.mul i.upper j.lower)
      (F32.mul i.lower j.upper)) (F32.mul i.lower j.lower))
      (F32.mul i.upper j.upper),
   F32.fmax (F32.fmax (F32.fmax (F32.mul i.upper j.lower)
      (F32.mul i.lower j.upper)) (F32.mul i.lower j.lower))
      (F32.mul i.upper j.upper)⟩

/-- The hull used by `eval_subdiv_recurse` (interval.rs line 237):
`Interval::new(a.lower().min(b.lower()), a.upper().max(b.upper()))`. -/
def hull (i j : Interval) : Interval :=
  ⟨F32.fmin i.lower j.lower, F32.fmax i.upper j.upper⟩

end Interval

/-- Expression over the three spatial inputs, covering exactly the primitive
operations named by the interval-soundness property (spec §8): `add`, `sub`,
`neg`, `mul`, `abs`, `sqrt`, `min`, `max`. -/
inductive Expr where
  | X : Expr
  | Y : Expr
  | Z : Expr
  | const : ℚ → Expr
  | neg : Expr → Expr
  | abs : Expr → Expr
  | sqrt : Expr → Expr
  | add : Expr → Expr → Expr
  | sub : Expr → Expr → Expr
  | mul : Expr → Expr → Expr
  | min : Expr → Expr → Expr
  | max : Expr → Expr → Expr
deriving DecidableEq

namespace Expr

/-- Modelled from the spec: the point evaluator (`point_eval`) is not among
the sources; it evaluates the expression with f32 arithmetic, NaN
propagating "naturally" through every operation (spec §7). -/
def peval (x y z : F32) : Expr → F32
  | X => x
  | Y => y
  | Z => z
  | const q => F32.fin q
  | neg e => F32.neg (peval x y z e)
  | abs e => F32.abs (peval x y z e)
  | sqrt e => F32.sqrt (peval x y z e)
  | add a b => F32.add (peval x y z a) (peval x y z b)
  | sub a b => F32.sub (peval x y z a) (peval x y z b)
  | mul a b => F32.mul (peval x y z a) (peval x y z b)
  | min a b => F32.pmin (peval x y z a) (peval x y z b)
  | max a b => F32.pmax (peval x y z a) (peval x y z b)

/-- Interval evaluation with the core `Interval` operations, emitting the
choice trail in tape order (operands before their consumer, i.e. each
`min`/`max` appends its choice after the trails of its operands). -/
def ieval (X' Y' Z' : Interval) : Expr → Interval × List Choice
  | X => (X', [])
  | Y => (Y', [])
  | Z => (Z', [])
  | const q => (⟨F32.fin q, F32.fin q⟩, [])
  | neg e => ((ieval X' Y' Z' e).1.neg, (ieval X' Y' Z' e).2)
  | abs e => ((ieval X' Y' Z' e).1.abs, (ieval X' Y' Z' e).2)
  | sqrt e => ((ieval X' Y' Z' e).1.sqrt, (ieval X' Y' Z' e).2)
  | add a b => ((ieval X' Y' Z' a).1.add (ieval X' Y' Z' b).1,
      (ieval X' Y' Z' a).2 ++ (ieval X' Y' Z' b).2)
  | sub a b => ((ieval X' Y' Z' a).1.sub (ieval X' Y' Z' b).1,
      (ieval X' Y' Z' a).2 ++ (ieval X' Y' Z' b).2)
  | mul a b => ((ieval X' Y' Z' a).1.mul (ieval X' Y' Z' b).1,
      (ieval X' Y' Z' a).2 ++ (ieval X' Y' Z' b).2)
  | min a b =>
      (((ieval X' Y' Z' a).1.min_choice (ieval X' Y' Z' b).1).1,
       (ieval X' Y' Z' a).2 ++ (ieval X' Y' Z' b).2 ++
         [((ieval X' Y' Z' a).1.min_choice (ieval X' Y' Z' b).1).2])
  | max a b =>
      (((ieval X' Y' Z' a).1.max_choice (ieval X' Y' Z' b).1).1,
       (ieval X' Y' Z' a).2 ++ (ieval X' Y' Z' b).2 ++
         [((ieval X' Y' Z' a).1.max_choice (ieval X' Y' Z' b).1).2])

/-- Well-formedness of an interval evaluation: no subexpression's interval
has a NaN bound. -/
def ievalWF (X' Y' Z' : Interval) : Expr → Bool
  | X => X'.noNaN
  | Y => Y'.noNaN
  | Z => Z'.noNaN
  | const _ => true
  | neg e => ievalWF X' Y' Z' e && ((ieval X' Y' Z' (Expr.neg e)).1).noNaN
  | abs e => ievalWF X' Y' Z' e && ((ieval X' Y' Z' (Expr.abs e)).1).noNaN
  | sqrt e => ievalWF X' Y' Z' e && ((ieval X' Y' Z' (Expr.sqrt e)).1).noNaN
  | add a b => ievalWF X' Y' Z' a && ievalWF X' Y' Z' b &&
      ((ieval X' Y' Z' (Expr.add a b)).1).noNaN
  | sub a b => ievalWF X' Y' Z' a && ievalWF X' Y' Z' b &&
      ((ieval X' Y' Z' (Expr.sub a b)).1).noNaN
  | mul a b => ievalWF X' Y' Z' a && ievalWF X' Y' Z' b &&
      ((ieval X' Y' Z' (Expr.mul a b)).1).noNaN
  | min a b => ievalWF X' Y' Z' a && ievalWF X' Y' Z' b &&
      ((ieval X' Y' Z' (Expr.min a b)).1).noNaN
  | max a b => ievalWF X' Y' Z' a && ievalWF X' Y' Z' b &&
      ((ieval X' Y' Z' (Expr.max a b)).1).noNaN

/-- Number of choice-bearing (`min`/`max`) operations, the tape's
`choice_count`. -/
def choiceCount : Expr → Nat
  | X => 0
  | Y => 0
  | Z => 0
  | const _ => 0
  | neg e => choiceCount e
  | abs e => choiceCount e
  | sqrt e => choiceCount e
  | add a b => choiceCount a + choiceCount b
  | sub a b => choiceCount a + choiceCount b
  | mul a b => choiceCount a + choiceCount b
  | min a b => choiceCount a + choiceCount b + 1
  | max a b => choiceCount a + choiceCount b + 1

/-- Modelled from the spec: the tape simplifier
(`Tape::simplify_with_reg_limit`, called by `IntervalEval::simplify`, is not
among the sources).  Per spec §4.3 it consumes the choice trail in tape
order; a `Min`/`Max` whose choice is `Left` is replaced by (a copy of) its
left operand, `Right` by its right operand, and `Both`/`Unknown` keeps the
operation.  Returns the simplified expression and the unconsumed rest of the
trail. -/
def simplifyGo : Expr → List Choice → Expr × List Choice
  | X, tr => (X, tr)
  | Y, tr => (Y, tr)
  | Z, tr => (Z, tr)
  | const q, tr => (const q, tr)
  | neg e, tr => ((simplifyGo e tr).1.neg, (simplifyGo e tr).2)
  | abs e, tr => ((simplifyGo e tr).1.abs, (simplifyGo e tr).2)
  | sqrt e, tr => ((simplifyGo e tr).1.sqrt, (simplifyGo e tr).2)
  | add a b, tr => ((simplifyGo a tr).1.add ((simplifyGo b (simplifyGo a tr).2).1),
      (simplifyGo b (simplifyGo a tr).2).2)
  | sub a b, tr => ((simplifyGo a tr).1.sub ((simplifyGo b (simplifyGo a tr).2).1),
      (simplifyGo b (simplifyGo a tr).2).2)
  | mul a b, tr => ((simplifyGo a tr).1.mul ((simplifyGo b (simplifyGo a tr).2).1),
      (simplifyGo b (simplifyGo a tr).2).2)
  | min a b, tr =>
      match (simplifyGo b (simplifyGo a tr).2).2 with
      | [] => ((simplifyGo a tr).1.min ((simplifyGo b (simplifyGo a tr).2).1), [])
      | Choice.Left :: rest => ((simplifyGo a tr).1, rest)
      | Choice.Right :: rest => ((simplifyGo b (simplifyGo a tr).2).1, rest)
      | _ :: rest => ((simplifyGo a tr).1.min ((simplifyGo b (simplifyGo a tr).2).1), rest)
  | max a b, tr =>
      match (simplifyGo b (simplifyGo a tr).2).2 with
      | [] => ((simplifyGo a tr).1.max ((simplifyGo b (simplifyGo a tr).2).1), [])
      | Choice.Left :: rest => ((simplifyGo a tr).1, rest)
      | Choice.Right :: rest => ((simplifyGo b (simplifyGo a tr).2).1, rest)
      | _ :: rest => ((simplifyGo a tr).1.max ((simplifyGo b (simplifyGo a tr).2).1), rest)

/-- `IntervalEval::simplify` on this model: simplify against the full trail. -/
def simplifyTape (e : Expr) (tr : List Choice) : Expr := (simplifyGo e tr).1

/-- Interval evaluation with the JIT operation semantics (the code emitted
by `IntervalAssembler::build_*`), emitting the choice trail in tape order
(operands before their consumer, i.e. each `min`/`max` appends its choice
after the trails of its operands). -/
def ievalJ (X' Y' Z' : Interval) : Expr → Interval × List Choice
  | X => (X', [])
  | Y => (Y', [])
  | Z => (Z', [])
  | const q => (⟨F32.fin q, F32.fin q⟩, [])
  | neg e => ((ievalJ X' Y' Z' e).1.negJit, (ievalJ X' Y' Z' e).2)
  | abs e => ((ievalJ X' Y' Z' e).1.absJit, (ievalJ X' Y' Z' e).2)
  | sqrt e => ((ievalJ X' Y' Z' e).1.sqrtJit, (ievalJ X' Y' Z' e).2)
  | add a b => ((ievalJ X' Y' Z' a).1.addJit (ievalJ X' Y' Z' b).1,
      (ievalJ X' Y' Z' a).2 ++ (ievalJ X' Y' Z' b).2)
  | sub a b => ((ievalJ X' Y' Z' a).1.subJit (ievalJ X' Y' Z' b).1,
      (ievalJ X' Y' Z' a).2 ++ (ievalJ X' Y' Z' b).2)
  | mul a b => ((ievalJ X' Y' Z' a).1.mulJit (ievalJ X' Y' Z' b).1,
      (ievalJ X' Y' Z' a).2 ++ (ievalJ X' Y' Z' b).2)
  | min a b =>
      (((ievalJ X' Y' Z' a).1.minJit (ievalJ X' Y' Z' b).1).1,
       (ievalJ X' Y' Z' a).2 ++ (ievalJ X' Y' Z' b).2 ++
         [((ievalJ X' Y' Z' a).1.minJit (ievalJ X' Y' Z' b).1).2])
  | max a b =>
      (((ievalJ X' Y' Z' a).1.maxJit (ievalJ X' Y' Z' b).1).1,
       (ievalJ X' Y' Z' a).2 ++ (ievalJ X' Y' Z' b).2 ++
         [((ievalJ X' Y' Z' a).1.maxJit (ievalJ X' Y' Z' b).1).2])

/-- Result of one JIT interval evaluation call: the output interval, the
choice-trail buffer (a map from positions, since the emitted code addresses
it by a moving pointer), the final pointer position, and the `simplify`
flag byte (as a Bool: nonzero). -/
structure WRes where
  ival : Interval
  arr : Nat → Choice
  pos : Nat
  flag : Bool

/-- The JIT interval evaluation (`JitIntervalEval::eval_with` plus the
emitted code, with each operation computed by its `build_*` semantics —
`negJit`, `absJit`, `sqrtJit`, `addJit`, `subJit`, `mulJit`, `minJit`,
`maxJit`): each `min`/`max` reads the byte at the trail pointer, ORs its
choice into it, writes it back, post-increments the pointer, and on a
`Left`/`Right` choice additionally writes a nonzero value to the `simplify`
flag. -/
def evalW (X' Y' Z' : Interval) : Expr → (Nat → Choice) → Nat → Bool → WRes
  | Expr.X, arr, p, s => ⟨X', arr, p, s⟩
  | Expr.Y, arr, p, s => ⟨Y', arr, p, s⟩
  | Expr.Z, arr, p, s => ⟨Z', arr, p, s⟩
  | Expr.const q, arr, p, s => ⟨⟨F32.fin q, F32.fin q⟩, arr, p, s⟩
  | Expr.neg e, arr, p, s =>
      let r := evalW X' Y' Z' e arr p s
      ⟨r.ival.negJit, r.arr, r.pos, r.flag⟩
  | Expr.abs e, arr, p, s =>
      let r := evalW X' Y' Z' e arr p s
      ⟨r.ival.absJit, r.arr, r.pos, r.flag⟩
  | Expr.sqrt e, arr, p, s =>
      let r := evalW X' Y' Z' e arr p s
      ⟨r.ival.sqrtJit, r.arr, r.pos, r.flag⟩
  | Expr.add a b, arr, p, s =>
      let r1 := evalW X' Y' Z' a arr p s
      let r2 := evalW X' Y' Z' b r1.arr r1.pos r1.flag
      ⟨r1.ival.addJit r2.ival, r2.arr, r2.pos, r2.flag⟩
  | Expr.sub a b, arr, p, s =>
      let r1 := evalW X' Y' Z' a arr p s
      let r2 := evalW X' Y' Z' b r1.arr r1.pos r1.flag
      ⟨r1.ival.subJit r2.ival, r2.arr, r2.pos, r2.flag⟩
  | Expr.mul a b, arr, p, s =>
      let r1 := evalW X' Y' Z' a arr p s
      let r2 := evalW X' Y' Z' b r1.arr r1.pos r1.flag
      ⟨r1.ival.mulJit r2.ival, r2.arr, r2.pos, r2.flag⟩
  | Expr.min a b, arr, p, s =>
      let r1 := evalW X' Y' Z' a arr p s
      let r2 := evalW X' Y' Z' b r1.arr r1.pos r1.flag
      ⟨(r1.ival.minJit r2.ival).1,
       fun n => if n = r2.pos
         then (r2.arr r2.pos).orc (r1.ival.minJit r2.ival).2
         else r2.arr n,
       r2.pos + 1,
       r2.flag || (r1.ival.minJit r2.ival).2.isLR⟩
  | Expr.max a b, arr, p, s =>
      let r1 := evalW X' Y' Z' a arr p s
      let r2 := evalW X' Y' Z' b r1.arr r1.pos r1.flag
      ⟨(r1.ival.maxJit r2.ival).1,
       fun n => if n = r2.pos
         then (r2.arr r2.pos).orc (r1.ival.maxJit r2.ival).2
         else r2.arr n,
       r2.pos + 1,
       r2.flag || (r1.ival.maxJit r2.ival).2.isLR⟩

/-- `IntervalEval::eval_subdiv_recurse` (interval.rs lines 196–239): depth 0
is a single direct evaluation; otherwise bisect the longest axis at its
midpoint, recurse at depth `k−1` on each half, and take the hull.  (The
choice trail is irrelevant to the returned interval and is dropped here.) -/
def subdivEval (e : Expr) : Interval → Interval → Interval → Nat → Interval
  | X', Y', Z', 0 => (ieval X' Y' Z' e).1
  | X', Y', Z', k+1 =>
    let dx := F32.sub X'.upper X'.lower
    let dy := F32.sub Y'.upper Y'.lower
    let dz := F32.sub Z'.upper Z'.lower
    if F32.le dy dx && F32.le dz dx then
      let xm := F32.add X'.lower (F32.half dx)
      (subdivEval e ⟨X'.lower, xm⟩ Y' Z' k).hull (subdivEval e ⟨xm, X'.upper⟩ Y' Z' k)
    else if F32.le dz dy then
      let ym := F32.add Y'.lower (F32.half dy)
      (subdivEval e X' ⟨Y'.lower, ym⟩ Z' k).hull (subdivEval e X' ⟨ym, Y'.upper⟩ Z' k)
    else
      let zm := F32.add Z'.lower (F32.half dz)
      (subdivEval e X' Y' ⟨Z'.lower, zm⟩ k).hull (subdivEval e X' Y' ⟨zm, Z'.upper⟩ k)

/-- Well-formedness of a whole subdivision tree: every leaf evaluation is
`ievalWF`. -/
def subdivWF (e : Expr) : Interval → Interval → Interval → Nat → Bool
  | X', Y', Z', 0 => ievalWF X' Y' Z' e
  | X', Y', Z', k+1 =>
    let dx := F32.sub X'.upper X'.lower
    let dy := F32.sub Y'.upper Y'.lower
    let dz := F32.sub Z'.upper Z'.lower
    if F32.le dy dx && F32.le dz dx then
      let xm := F32.add X'.lower (F32.half dx)
      subdivWF e ⟨X'.lower, xm⟩ Y' Z' k && subdivWF e ⟨xm, X'.upper⟩ Y' Z' k
    else if F32.le dz dy then
      let ym := F32.add Y'.lower (F32.half dy)
      subdivWF e X' ⟨Y'.lower, ym⟩ Z' k && subdivWF e X' ⟨ym, Y'.upper⟩ Z' k
    else
      let zm := F32.add Z'.lower (F32.half dz)
      subdivWF e X' Y' ⟨Z'.lower, zm⟩ k && subdivWF e X' Y' ⟨zm, Z'.upper⟩ k

end Expr

/-- `JitIntervalEval` (jit/interval.rs lines 456–468) as far as storage
ownership is concerned: a handle on an executable mapping shared through an
`Arc`.  `strong` is the strong reference count of the `Arc` (the number of
live handles sharing the mapping, at least 1); `mmap` stands for the
mapping. -/
structure JitHandle where
  strong : Nat
  mmap : Nat
deriving DecidableEq

namespace JitHandle

/-- `Clone` for `JitIntervalEval` (it is `#[derive(Clone)]` and its only
shared field is the `Arc<Mmap>`): cloning bumps the strong count of the
shared `Arc`. -/
def clone (h : JitHandle) : JitHandle := ⟨h.strong + 1, h.mmap⟩

/-- `JitIntervalEval::take` (jit/interval.rs lines 484–487):
`Arc::try_unwrap(self.mmap).ok()`.  `Arc::try_unwrap` succeeds exactly when
the strong count is 1 (std semantics). -/
def take (h : JitHandle) : Option Nat :=
  if h.strong = 1 then some h.mmap else none

end JitHandle

/-!  ## Bridge lemmas: the kernel-computable rational wrappers agree with
the library operations.  -/

@[simp] lemma qadd_eq (a b : ℚ) : qadd a b = a + b := by
  unfold qadd
  rw [Rat.mkRat_eq_div]
  have ha : ((a.den : ℚ)) ≠ 0 := by positivity
  have hb : ((b.den : ℚ)) ≠ 0 := by positivity
  conv_rhs => rw [← Rat.num_div_den a, ← Rat.num_div_den b]
  push_cast
  field_simp

@[simp] lemma qmul_eq (a b : ℚ) : qmul a b = a * b := by
  unfold qmul
  rw [Rat.mkRat_eq_div]
  have ha : ((a.den : ℚ)) ≠ 0 := by positivity
  have hb : ((b.den : ℚ)) ≠ 0 := by positivity
  conv_rhs => rw [← Rat.num_div_den a, ← Rat.num_div_den b]
  push_cast
  field_simp

@[simp] lemma qhalf_eq (a : ℚ) : qhalf a = a / 2 := by
  unfold qhalf
  rw [Rat.mkRat_eq_div]
  have ha : ((a.den : ℚ)) ≠ 0 := by positivity
  conv_rhs => rw [← Rat.num_div_den a]
  push_cast
  field_simp

@[simp] lemma qabs_eq (a : ℚ) : qabs a = |a| := by
  unfold qabs
  rcases lt_trichotomy a 0 with h | h | h
  · rw [if_pos (by exact Rat.num_neg.mpr h), abs_of_neg h]
  · subst h; norm_num
  · rw [if_neg (by simp [Rat.num_neg]; linarith), abs_of_pos h]

@[simp] lemma qinv_eq (a : ℚ) : qinv a = a⁻¹ := by
  unfold qinv
  rw [Rat.inv_def', Rat.divInt_eq_div]
  rcases lt_trichotomy a 0 with h | h | h
  · rw [if_pos (by exact Rat.num_neg.mpr h), Rat.mkRat_eq_div]
    rw [Int.cast_natAbs, abs_of_neg (by exact_mod_cast Rat.num_neg.mpr h)]
    push_cast
    rw [div_neg, neg_div, neg_neg]
  · subst h; norm_num
  · rw [if_neg (by simp [Rat.num_neg]; linarith), Rat.mkRat_eq_div]
    rw [Int.cast_natAbs, abs_of_nonneg (by exact_mod_cast le_of_lt (Rat.num_pos.mpr h))]

/-!  ## Basic facts about the `F32` model.  -/

namespace F32

@[simp] lemma le_fin_fin (p q : ℚ) : le (fin p) (fin q) = decide (p ≤ q) := rfl

@[simp] lemma lt_fin_fin (p q : ℚ) : lt (fin p) (fin q) = decide (p < q) := rfl

@[simp] lemma le_nan_left (x : F32) : le nan x = false := by cases x <;> rfl

@[simp] lemma le_nan_right (x : F32) : le x nan = false := by cases x <;> rfl

@[simp] lemma lt_nan_left (x : F32) : lt nan x = false := by cases x <;> rfl

@[simp] lemma lt_nan_right (x : F32) : lt x nan = false := by cases x <;> rfl

@[simp] lemma add_fin_fin (p q : ℚ) : add (fin p) (fin q) = fin (p + q) := by
  simp [add]

@[simp] lemma mul_fin_fin (p q : ℚ) : mul (fin p) (fin q) = fin (p * q) := by
  simp [mul]

@[simp] lemma neg_fin (p : ℚ) : neg (fin p) = fin (-p) := rfl

@[simp] lemma sub_fin_fin (p q : ℚ) : sub (fin p) (fin q) = fin (p - q) := by
  simp [sub, add]
  ring

@[simp] lemma abs_fin (p : ℚ) : abs (fin p) = fin |p| := by
  simp [abs]

@[simp] lemma half_fin (p : ℚ) : half (fin p) = fin (p / 2) := by
  simp [half]

lemma sqrt_fin_nonneg (p : ℚ) (h : 0 ≤ p) : sqrt (fin p) = fin (fsqrtQ p) := by
  simp [sqrt, not_lt.mpr h]

lemma sqrt_fin_neg (p : ℚ) (h : p < 0) : sqrt (fin p) = nan := by
  simp [sqrt, h]

lemma core_min_fin (p q : ℚ) :
    (if le (fin p) (fin q) then (fin p : F32) else fin q) = fin (min p q) := by
  by_cases h : p ≤ q
  · simp [h, min_eq_left h]
  · simp [h, min_eq_right (le_of_not_le h)]

lemma core_max_fin (p q : ℚ) :
    (if le (fin p) (fin q) then (fin q : F32) else fin p) = fin (max p q) := by
  by_cases h : p ≤ q
  · simp [h, max_eq_right h]
  · simp [h, max_eq_left (le_of_not_le h)]

@[simp] lemma fmin_fin_fin (p q : ℚ) : fmin (fin p) (fin q) = fin (min p q) := by
  rw [fmin, if_neg (by simp), if_neg (by simp)]
  exact core_min_fin p q

@[simp] lemma fmax_fin_fin (p q : ℚ) : fmax (fin p) (fin q) = fin (max p q) := by
  rw [fmax, if_neg (by simp), if_neg (by simp)]
  exact core_max_fin p q

@[simp] lemma fminA_fin_fin (p q : ℚ) : fminA (fin p) (fin q) = fin (min p q) := by
  rw [fminA, if_neg (by simp)]
  exact core_min_fin p q

@[simp] lemma fmaxA_fin_fin (p q : ℚ) : fmaxA (fin p) (fin q) = fin (max p q) := by
  rw [fmaxA, if_neg (by simp)]
  exact core_max_fin p q

@[simp] lemma pmin_fin_fin (p q : ℚ) : pmin (fin p) (fin q) = fin (min p q) := by
  rw [pmin, if_neg (by simp)]
  exact core_min_fin p q

@[simp] lemma pmax_fin_fin (p q : ℚ) : pmax (fin p) (fin q) = fin (max p q) := by
  rw [pmax, if_neg (by simp)]
  exact core_max_fin p q

@[simp] lemma add_nan_left (x : F32) : add nan x = nan := by cases x <;> rfl

@[simp] lemma add_nan_right (x : F32) : add x nan = nan := by cases x <;> rfl

@[simp] lemma mul_nan_left (x : F32) : mul nan x = nan := by cases x <;> rfl

@[simp] lemma mul_nan_right (x : F32) : mul x nan = nan := by cases x <;> rfl

@[simp] lemma neg_nan : neg nan = nan := rfl

@[simp] lemma sub_nan_left (x : F32) : sub nan x = nan := by simp [sub]

@[simp] lemma sub_nan_right (x : F32) : sub x nan = nan := by simp [sub, neg]

@[simp] lemma abs_nan : abs nan = nan := rfl

@[simp] lemma sqrt_nan : sqrt nan = nan := rfl

@[simp] lemma pmin_nan_left (x : F32) : pmin nan x = nan := by simp [pmin]

@[simp] lemma pmin_nan_right (x : F32) : pmin x nan = nan := by simp [pmin]

@[simp] lemma pmax_nan_left (x : F32) : pmax nan x = nan := by simp [pmax]

@[simp] lemma pmax_nan_right (x : F32) : pmax x nan = nan := by simp [pmax]

@[simp] lemma fmin_nan_left (x : F32) : fmin nan x = x := by simp [fmin]

@[simp] lemma fmin_nan_right (x : F32) : fmin x nan = x := by
  rw [fmin]
  split_ifs with h <;> simp_all

@[simp] lemma fmax_nan_left (x : F32) : fmax nan x = x := by simp [fmax]

@[simp] lemma fmax_nan_right (x : F32) : fmax x nan = x := by
  rw [fmax]
  split_ifs with h <;> simp_all

/-- Inversion: a finite sum comes from finite summands. -/
lemma add_eq_fin {x y : F32} {v : ℚ} (h : add x y = fin v) :
    ∃ p q : ℚ, x = fin p ∧ y = fin q ∧ v = p + q := by
  cases x <;> cases y <;> simp_all [add]

/-- Inversion: a finite product comes from finite factors. -/
lemma mul_eq_fin {x y : F32} {v : ℚ} (h : mul x y = fin v) :
    ∃ p q : ℚ, x = fin p ∧ y = fin q ∧ v = p * q := by
  cases x <;> cases y <;> simp_all [mul] <;> split_ifs at h <;> simp_all

/-- Inversion: a finite negation comes from a finite operand. -/
lemma neg_eq_fin {x : F32} {v : ℚ} (h : neg x = fin v) :
    ∃ p : ℚ, x = fin p ∧ v = -p := by
  cases x <;> simp_all [neg]

lemma sub_eq_fin {x y : F32} {v : ℚ} (h : sub x y = fin v) :
    ∃ p q : ℚ, x = fin p ∧ y = fin q ∧ v = p - q := by
  rcases add_eq_fin h with ⟨p, q, hx, hy, hv⟩
  rcases neg_eq_fin hy with ⟨r, hy2, hq⟩
  exact ⟨p, r, hx, hy2, by rw [hv, hq]; ring⟩

lemma abs_eq_fin {x : F32} {v : ℚ} (h : abs x = fin v) :
    ∃ p : ℚ, x = fin p ∧ v = |p| := by
  cases x <;> simp_all [abs]

lemma sqrt_eq_fin {x : F32} {v : ℚ} (h : sqrt x = fin v) :
    ∃ p : ℚ, x = fin p ∧ 0 ≤ p ∧ v = fsqrtQ p := by
  cases x with
  | nan => simp_all
  | ninf => simp [sqrt] at h
  | inf => simp [sqrt] at h
  | fin q =>
    simp only [sqrt] at h
    split_ifs at h with hq
    injection h with h2
    exact ⟨q, rfl, not_lt.mp hq, h2.symm⟩

/-- `fsqrtQ` is monotone. -/
lemma fsqrtQ_mono {p q : ℚ} (h : p ≤ q) : fsqrtQ p ≤ fsqrtQ q := by
  unfold fsqrtQ
  exact_mod_cast Nat.sqrt_le_sqrt (Nat.floor_le_floor h)

/-- `fsqrtQ` is nonnegative. -/
lemma fsqrtQ_nonneg (p : ℚ) : 0 ≤ fsqrtQ p := by
  unfold fsqrtQ
  positivity

end F32

/-!  ## Rational bounds for products over a box.  -/

lemma qmin4_le {a b c d x y : ℚ} (hx1 : a ≤ x) (hx2 : x ≤ b)
    (hy1 : c ≤ y) (hy2 : y ≤ d) :
    min (min (min (a*c) (a*d)) (b*c)) (b*d) ≤ x * y := by
  have h1 : min (a*c) (a*d) ≤ a*y := by
    rcases le_total 0 a with h | h
    · exact le_trans (min_le_left _ _) (mul_le_mul_of_nonneg_left hy1 h)
    · exact le_trans (min_le_right _ _) (mul_le_mul_of_nonpos_left hy2 h)
  have h2 : min (b*c) (b*d) ≤ b*y := by
    rcases le_total 0 b with h | h
    · exact le_trans (min_le_left _ _) (mul_le_mul_of_nonneg_left hy1 h)
    · exact le_trans (min_le_right _ _) (mul_le_mul_of_nonpos_left hy2 h)
  have h3 : min (a*y) (b*y) ≤ x*y := by
    rcases le_total 0 y with h | h
    · exact le_trans (min_le_left _ _) (mul_le_mul_of_nonneg_right hx1 h)
    · exact le_trans (min_le_right _ _) (mul_le_mul_of_nonpos_right hx2 h)
  have h4 : min (min (min (a*c) (a*d)) (b*c)) (b*d) ≤ min (a*y) (b*y) := by
    apply le_min
    · exact le_trans (le_trans (min_le_left _ _) (min_le_left _ _)) h1
    · apply le_trans _ h2
      apply le_min
      · exact le_trans (min_le_left _ _) (min_le_right _ _)
      · exact min_le_right _ _
  exact le_trans h4 h3

lemma qmax4_ge {a b c d x y : ℚ} (hx1 : a ≤ x) (hx2 : x ≤ b)
    (hy1 : c ≤ y) (hy2 : y ≤ d) :
    x * y ≤ max (max (max (a*c) (a*d)) (b*c)) (b*d) := by
  have h1 : a*y ≤ max (a*c) (a*d) := by
    rcases le_total 0 a with h | h
    · exact le_trans (mul_le_mul_of_nonneg_left hy2 h) (le_max_right _ _)
    · exact le_trans (mul_le_mul_of_nonpos_left hy1 h) (le_max_left _ _)
  have h2 : b*y ≤ max (b*c) (b*d) := by
    rcases le_total 0 b with h | h
    · exact le_trans (mul_le_mul_of_nonneg_left hy2 h) (le_max_right _ _)
    · exact le_trans (mul_le_mul_of_nonpos_left hy1 h) (le_max_left _ _)
  have h3 : x*y ≤ max (a*y) (b*y) := by
    rcases le_total 0 y with h | h
    · exact le_trans (mul_le_mul_of_nonneg_right hx2 h) (le_max_right _ _)
    · exact le_trans (mul_le_mul_of_nonpos_right hx1 h) (le_max_left _ _)
  have h4 : max (a*y) (b*y) ≤ max (max (max (a*c) (a*d)) (b*c)) (b*d) := by
    apply max_le
    · exact le_trans h1 (le_trans (le_max_left _ _) (le_max_left _ _))
    · apply le_trans h2
      apply max_le
      · exact le_trans (le_max_right _ _) (le_max_left _ _)
      · exact le_max_right _ _
  exact le_trans h3 h4

/-!  ## Characterization of the interval operations on finite operands.  -/

namespace Interval

@[simp] lemma lower_mk (a b : F32) : (Interval.mk a b).lower = a := rfl

@[simp] lemma upper_mk (a b : F32) : (Interval.mk a b).upper = b := rfl

lemma fv_iff {i : Interval} : i.fv = true ↔ ∃ a b : ℚ,
    i = ⟨F32.fin a, F32.fin b⟩ ∧ a ≤ b := by
  rcases i with ⟨l, u⟩
  cases l <;> cases u <;> simp [fv]
  constructor
  · exact fun h => ⟨_, _, ⟨rfl, rfl⟩, h⟩
  · rintro ⟨a, b, ⟨rfl, rfl⟩, h⟩
    exact h

lemma containsF_fin {a b v : ℚ} :
    containsF ⟨F32.fin a, F32.fin b⟩ (F32.fin v) = true ↔ a ≤ v ∧ v ≤ b := by
  simp [containsF]

/-- Membership in a finite valid interval forces the point to be finite. -/
lemma containsF_fv_fin {i : Interval} {x : F32} (hi : i.fv = true)
    (hx : i.containsF x = true) :
    ∃ a b v : ℚ, i = ⟨F32.fin a, F32.fin b⟩ ∧ x = F32.fin v ∧ a ≤ v ∧ v ≤ b := by
  rcases fv_iff.mp hi with ⟨a, b, rfl, hab⟩
  cases x with
  | nan => simp [containsF] at hx
  | ninf => simp [containsF, F32.le] at hx
  | inf => simp [containsF, F32.le] at hx
  | fin v => exact ⟨a, b, v, rfl, rfl, containsF_fin.mp hx⟩

lemma add_fin (a b c d : ℚ) :
    Interval.add ⟨F32.fin a, F32.fin b⟩ ⟨F32.fin c, F32.fin d⟩ =
      ⟨F32.fin (a + c), F32.fin (b + d)⟩ := by
  simp [Interval.add]

lemma sub_fin (a b c d : ℚ) :
    Interval.sub ⟨F32.fin a, F32.fin b⟩ ⟨F32.fin c, F32.fin d⟩ =
      ⟨F32.fin (a - d), F32.fin (b - c)⟩ := by
  simp [Interval.sub]

lemma neg_finI (a b : ℚ) :
    Interval.neg ⟨F32.fin a, F32.fin b⟩ = ⟨F32.fin (-b), F32.fin (-a)⟩ := by
  simp [Interval.neg]

lemma mul_fin (a b c d : ℚ) :
    Interval.mul ⟨F32.fin a, F32.fin b⟩ ⟨F32.fin c, F32.fin d⟩ =
      ⟨F32.fin (min (min (min (a*c) (a*d)) (b*c)) (b*d)),
       F32.fin (max (max (max (a*c) (a*d)) (b*c)) (b*d))⟩ := by
  simp [Interval.mul]

lemma abs_fin_nonneg {a b : ℚ} (h : 0 ≤ a) :
    Interval.abs ⟨F32.fin a, F32.fin b⟩ = ⟨F32.fin a, F32.fin b⟩ := by
  simp [Interval.abs, not_lt.mpr h]

lemma abs_fin_nonpos {a b : ℚ} (h : a < 0) (h2 : b ≤ 0) :
    Interval.abs ⟨F32.fin a, F32.fin b⟩ = ⟨F32.fin (-b), F32.fin (-a)⟩ := by
  simp [Interval.abs, h, not_lt.mpr h2]

lemma abs_fin_strad {a b : ℚ} (h : a < 0) (h2 : 0 < b) :
    Interval.abs ⟨F32.fin a, F32.fin b⟩ = ⟨F32.fin 0, F32.fin (max b (-a))⟩ := by
  simp [Interval.abs, h, h2]

lemma sqrt_finI_nonneg {a b : ℚ} (h : 0 ≤ a) (hab : a ≤ b) :
    Interval.sqrt ⟨F32.fin a, F32.fin b⟩ =
      ⟨F32.fin (F32.fsqrtQ a), F32.fin (F32.fsqrtQ b)⟩ := by
  simp only [Interval.sqrt, lower_mk, upper_mk, F32.lt_fin_fin]
  rw [if_neg (by simp [not_lt.mpr h])]
  rw [F32.sqrt_fin_nonneg a h, F32.sqrt_fin_nonneg b (le_trans h hab)]

lemma sqrt_fin_strad {a b : ℚ} (h : a < 0) (h2 : 0 < b) :
    Interval.sqrt ⟨F32.fin a, F32.fin b⟩ = ⟨F32.fin 0, F32.fin (F32.fsqrtQ b)⟩ := by
  simp only [Interval.sqrt, lower_mk, upper_mk, F32.lt_fin_fin]
  rw [if_pos (by simpa using h), if_pos (by simpa using h2), F32.sqrt_fin_nonneg b (le_of_lt h2)]

lemma sqrt_fin_nonpos {a b : ℚ} (h : a < 0) (h2 : b ≤ 0) :
    Interval.sqrt ⟨F32.fin a, F32.fin b⟩ = ⟨F32.nan, F32.nan⟩ := by
  simp only [Interval.sqrt, lower_mk, upper_mk, F32.lt_fin_fin]
  rw [if_pos (by simpa using h), if_neg (by simp [not_lt.mpr h2])]

lemma min_choice_fin_val (a b c d : ℚ) :
    (Interval.min_choice ⟨F32.fin a, F32.fin b⟩ ⟨F32.fin c, F32.fin d⟩).1 =
      ⟨F32.fin (min a c), F32.fin (min b d)⟩ := by
  simp [Interval.min_choice]

lemma max_choice_fin_val (a b c d : ℚ) :
    (Interval.max_choice ⟨F32.fin a, F32.fin b⟩ ⟨F32.fin c, F32.fin d⟩).1 =
      ⟨F32.fin (max a c), F32.fin (max b d)⟩ := by
  simp [Interval.max_choice]

end Interval

/-!  ## Enclosure: interval evaluation bounds point evaluation.  -/

namespace Expr

/-- With finite inputs, every point value is finite or NaN (never ±∞). -/
lemma peval_fin_or_nan (x y z : ℚ) (e : Expr) :
    peval (F32.fin x) (F32.fin y) (F32.fin z) e = F32.nan ∨
    ∃ v : ℚ, peval (F32.fin x) (F32.fin y) (F32.fin z) e = F32.fin v := by
  induction e with
  | X => exact Or.inr ⟨x, rfl⟩
  | Y => exact Or.inr ⟨y, rfl⟩
  | Z => exact Or.inr ⟨z, rfl⟩
  | const q => exact Or.inr ⟨q, rfl⟩
  | neg e ih =>
    rcases ih with h | ⟨v, h⟩ <;> simp [peval, h]
  | abs e ih =>
    rcases ih with h | ⟨v, h⟩ <;> simp [peval, h]
  | sqrt e ih =>
    rcases ih with h | ⟨v, h⟩
    · simp [peval, h]
    · simp only [peval, h, F32.sqrt]
      split_ifs <;> simp
  | add a b iha ihb =>
    rcases iha with h1 | ⟨v1, h1⟩ <;> rcases ihb with h2 | ⟨v2, h2⟩ <;>
      simp [peval, h1, h2]
  | sub a b iha ihb =>
    rcases iha with h1 | ⟨v1, h1⟩ <;> rcases ihb with h2 | ⟨v2, h2⟩ <;>
      simp [peval, h1, h2]
  | mul a b iha ihb =>
    rcases iha with h1 | ⟨v1, h1⟩ <;> rcases ihb with h2 | ⟨v2, h2⟩ <;>
      simp [peval, h1, h2]
  | min a b iha ihb =>
    rcases iha with h1 | ⟨v1, h1⟩ <;> rcases ihb with h2 | ⟨v2, h2⟩ <;>
      simp [peval, h1, h2]
  | max a b iha ihb =>
    rcases iha with h1 | ⟨v1, h1⟩ <;> rcases ihb with h2 | ⟨v2, h2⟩ <;>
      simp [peval, h1, h2]

/-- Core enclosure lemma.  Over finite valid input intervals, if no
intermediate interval of the evaluation has a NaN bound, then every
intermediate interval is finite and valid, and whenever the point value at a
node is finite it lies within that node's interval. -/
lemma encl {X' Y' Z' : Interval} (hX : X'.fv = true) (hY : Y'.fv = true)
    (hZ : Z'.fv = true) {x y z : ℚ}
    (hx : X'.containsF (F32.fin x) = true)
    (hy : Y'.containsF (F32.fin y) = true)
    (hz : Z'.containsF (F32.fin z) = true) :
    ∀ e : Expr, ievalWF X' Y' Z' e = true →
      (ieval X' Y' Z' e).1.fv = true ∧
      (∀ v : ℚ, peval (F32.fin x) (F32.fin y) (F32.fin z) e = F32.fin v →
        (ieval X' Y' Z' e).1.containsF (F32.fin v) = true) := by
  intro e
  induction e with
  | X =>
    intro _
    refine ⟨hX, fun v hv => ?_⟩
    simp only [peval] at hv
    rw [show (ieval X' Y' Z' Expr.X).1 = X' from rfl, ← hv]
    exact hx
  | Y =>
    intro _
    refine ⟨hY, fun v hv => ?_⟩
    simp only [peval] at hv
    rw [show (ieval X' Y' Z' Expr.Y).1 = Y' from rfl, ← hv]
    exact hy
  | Z =>
    intro _
    refine ⟨hZ, fun v hv => ?_⟩
    simp only [peval] at hv
    rw [show (ieval X' Y' Z' Expr.Z).1 = Z' from rfl, ← hv]
    exact hz
  | const q =>
    intro _
    refine ⟨by simp [ieval, Interval.fv], fun v hv => ?_⟩
    simp only [peval, F32.fin.injEq] at hv
    subst hv
    simp [ieval, Interval.containsF_fin]
  | neg e ih =>
    intro hwf
    simp only [ievalWF, Bool.and_eq_true] at hwf
    obtain ⟨hwf1, _⟩ := hwf
    obtain ⟨hfv, hmem⟩ := ih hwf1
    rcases Interval.fv_iff.mp hfv with ⟨a, b, hab, hle⟩
    refine ⟨?_, ?_⟩
    · simp only [ieval, hab, Interval.neg_finI, Interval.fv]
      simpa using neg_le_neg hle
    · intro v hv
      simp only [peval] at hv
      rcases F32.neg_eq_fin hv with ⟨w, hw, hvw⟩
      obtain ⟨h1, h2⟩ := Interval.containsF_fin.mp (hab ▸ hmem w hw)
      simp only [ieval, hab, Interval.neg_finI]
      rw [Interval.containsF_fin]
      constructor <;> [skip; skip] <;> rw [hvw] <;> linarith
  | abs e ih =>
    intro hwf
    simp only [ievalWF, Bool.and_eq_true] at hwf
    obtain ⟨hwf1, _⟩ := hwf
    obtain ⟨hfv, hmem⟩ := ih hwf1
    rcases Interval.fv_iff.mp hfv with ⟨a, b, hab, hle⟩
    rcases lt_or_le a 0 with ha | ha
    · rcases le_or_lt b 0 with hb | hb
      · refine ⟨?_, ?_⟩
        · simp only [ieval, hab, Interval.abs_fin_nonpos ha hb, Interval.fv]
          simpa using neg_le_neg hle
        · intro v hv
          simp only [peval] at hv
          rcases F32.abs_eq_fin hv with ⟨w, hw, hvw⟩
          obtain ⟨h1, h2⟩ := Interval.containsF_fin.mp (hab ▸ hmem w hw)
          simp only [ieval, hab, Interval.abs_fin_nonpos ha hb]
          rw [Interval.containsF_fin, hvw, abs_of_nonpos (le_trans h2 hb)]
          constructor <;> linarith
      · refine ⟨?_, ?_⟩
        · simp only [ieval, hab, Interval.abs_fin_strad ha hb, Interval.fv]
          simp only [decide_eq_true_eq]
          exact le_max_of_le_left (le_of_lt hb)
        · intro v hv
          simp only [peval] at hv
          rcases F32.abs_eq_fin hv with ⟨w, hw, hvw⟩
          obtain ⟨h1, h2⟩ := Interval.containsF_fin.mp (hab ▸ hmem w hw)
          simp only [ieval, hab, Interval.abs_fin_strad ha hb]
          rw [Interval.containsF_fin, hvw]
          refine ⟨abs_nonneg w, ?_⟩
          rw [abs_le]
          constructor
          · have hm := le_max_right b (-a)
            linarith
          · exact le_trans h2 (le_max_left _ _)
    · refine ⟨?_, ?_⟩
      · simp only [ieval, hab, Interval.abs_fin_nonneg ha, Interval.fv]
        simpa using hle
      · intro v hv
        simp only [peval] at hv
        rcases F32.abs_eq_fin hv with ⟨w, hw, hvw⟩
        obtain ⟨h1, h2⟩ := Interval.containsF_fin.mp (hab ▸ hmem w hw)
        simp only [ieval, hab, Interval.abs_fin_nonneg ha]
        rw [Interval.containsF_fin, hvw, abs_of_nonneg (le_trans ha h1)]
        exact ⟨h1, h2⟩
  | sqrt e ih =>
    intro hwf
    simp only [ievalWF, Bool.and_eq_true] at hwf
    obtain ⟨hwf1, hnn⟩ := hwf
    obtain ⟨hfv, hmem⟩ := ih hwf1
    rcases Interval.fv_iff.mp hfv with ⟨a, b, hab, hle⟩
    rcases lt_or_le a 0 with ha | ha
    · rcases le_or_lt b 0 with hb | hb
      · exfalso
        rw [show (ieval X' Y' Z' (Expr.sqrt e)).1 = (ieval X' Y' Z' e).1.sqrt from rfl, hab,
          Interval.sqrt_fin_nonpos ha hb] at hnn
        simp [Interval.noNaN] at hnn
      · refine ⟨?_, ?_⟩
        · simp only [ieval, hab, Interval.sqrt_fin_strad ha hb, Interval.fv]
          simpa using F32.fsqrtQ_nonneg b
        · intro v hv
          simp only [peval] at hv
          rcases F32.sqrt_eq_fin hv with ⟨w, hw, hw0, hvw⟩
          obtain ⟨h1, h2⟩ := Interval.containsF_fin.mp (hab ▸ hmem w hw)
          simp only [ieval, hab, Interval.sqrt_fin_strad ha hb]
          rw [Interval.containsF_fin, hvw]
          exact ⟨F32.fsqrtQ_nonneg w, F32.fsqrtQ_mono h2⟩
    · refine ⟨?_, ?_⟩
      · simp only [ieval, hab, Interval.sqrt_finI_nonneg ha hle, Interval.fv]
        simpa using F32.fsqrtQ_mono hle
      · intro v hv
        simp only [peval] at hv
        rcases F32.sqrt_eq_fin hv with ⟨w, hw, hw0, hvw⟩
        obtain ⟨h1, h2⟩ := Interval.containsF_fin.mp (hab ▸ hmem w hw)
        simp only [ieval, hab, Interval.sqrt_finI_nonneg ha hle]
        rw [Interval.containsF_fin, hvw]
        exact ⟨F32.fsqrtQ_mono h1, F32.fsqrtQ_mono h2⟩
  | add a b iha ihb =>
    intro hwf
    simp only [ievalWF, Bool.and_eq_true] at hwf
    obtain ⟨⟨hwfa, hwfb⟩, _⟩ := hwf
    obtain ⟨hfva, hmema⟩ := iha hwfa
    obtain ⟨hfvb, hmemb⟩ := ihb hwfb
    rcases Interval.fv_iff.mp hfva with ⟨a1, b1, hab1, hle1⟩
    rcases Interval.fv_iff.mp hfvb with ⟨a2, b2, hab2, hle2⟩
    refine ⟨?_, ?_⟩
    · simp only [ieval, hab1, hab2, Interval.add_fin, Interval.fv]
      simpa using add_le_add hle1 hle2
    · intro v hv
      simp only [peval] at hv
      rcases F32.add_eq_fin hv with ⟨p, q, hp, hq, hv2⟩
      obtain ⟨g1, g2⟩ := Interval.containsF_fin.mp (hab1 ▸ hmema p hp)
      obtain ⟨g3, g4⟩ := Interval.containsF_fin.mp (hab2 ▸ hmemb q hq)
      simp only [ieval, hab1, hab2, Interval.add_fin]
      rw [Interval.containsF_fin, hv2]
      constructor <;> linarith
  | sub a b iha ihb =>
    intro hwf
    simp only [ievalWF, Bool.and_eq_true] at hwf
    obtain ⟨⟨hwfa, hwfb⟩, _⟩ := hwf
    obtain ⟨hfva, hmema⟩ := iha hwfa
    obtain ⟨hfvb, hmemb⟩ := ihb hwfb
    rcases Interval.fv_iff.mp hfva with ⟨a1, b1, hab1, hle1⟩
    rcases Interval.fv_iff.mp hfvb with ⟨a2, b2, hab2, hle2⟩
    refine ⟨?_, ?_⟩
    · simp only [ieval, hab1, hab2, Interval.sub_fin, Interval.fv]
      simp only [decide_eq_true_eq]
      linarith
    · intro v hv
      simp only [peval] at hv
      rcases F32.sub_eq_fin hv with ⟨p, q, hp, hq, hv2⟩
      obtain ⟨g1, g2⟩ := Interval.containsF_fin.mp (hab1 ▸ hmema p hp)
      obtain ⟨g3, g4⟩ := Interval.containsF_fin.mp (hab2 ▸ hmemb q hq)
      simp only [ieval, hab1, hab2, Interval.sub_fin]
      rw [Interval.containsF_fin, hv2]
      constructor <;> linarith
  | mul a b iha ihb =>
    intro hwf
    simp only [ievalWF, Bool.and_eq_true] at hwf
    obtain ⟨⟨hwfa, hwfb⟩, _⟩ := hwf
    obtain ⟨hfva, hmema⟩ := iha hwfa
    obtain ⟨hfvb, hmemb⟩ := ihb hwfb
    rcases Interval.fv_iff.mp hfva with ⟨a1, b1, hab1, hle1⟩
    rcases Interval.fv_iff.mp hfvb with ⟨a2, b2, hab2, hle2⟩
    refine ⟨?_, ?_⟩
    · simp only [ieval, hab1, hab2, Interval.mul_fin, Interval.fv]
      simpa using le_trans (qmin4_le (le_refl a1) hle1 (le_refl a2) hle2)
        (qmax4_ge (le_refl a1) hle1 (le_refl a2) hle2)
    · intro v hv
      simp only [peval] at hv
      rcases F32.mul_eq_fin hv with ⟨p, q, hp, hq, hv2⟩
      obtain ⟨g1, g2⟩ := Interval.containsF_fin.mp (hab1 ▸ hmema p hp)
      obtain ⟨g3, g4⟩ := Interval.containsF_fin.mp (hab2 ▸ hmemb q hq)
      simp only [ieval, hab1, hab2, Interval.mul_fin]
      rw [Interval.containsF_fin, hv2]
      exact ⟨qmin4_le g1 g2 g3 g4, qmax4_ge g1 g2 g3 g4⟩
  | min a b iha ihb =>
    intro hwf
    simp only [ievalWF, Bool.and_eq_true] at hwf
    obtain ⟨⟨hwfa, hwfb⟩, _⟩ := hwf
    obtain ⟨hfva, hmema⟩ := iha hwfa
    obtain ⟨hfvb, hmemb⟩ := ihb hwfb
    rcases Interval.fv_iff.mp hfva with ⟨a1, b1, hab1, hle1⟩
    rcases Interval.fv_iff.mp hfvb with ⟨a2, b2, hab2, hle2⟩
    refine ⟨?_, ?_⟩
    · simp only [ieval, hab1, hab2, Interval.min_choice_fin_val, Interval.fv]
      simpa using min_le_min hle1 hle2
    · intro v hv
      simp only [peval] at hv
      rcases peval_fin_or_nan x y z a with hna | ⟨p, hp⟩
      · rw [hna] at hv
        simp at hv
      rcases peval_fin_or_nan x y z b with hnb | ⟨q, hq⟩
      · rw [hnb] at hv
        simp at hv
      rw [hp, hq] at hv
      simp only [F32.pmin_fin_fin, F32.fin.injEq] at hv
      obtain ⟨g1, g2⟩ := Interval.containsF_fin.mp (hab1 ▸ hmema p hp)
      obtain ⟨g3, g4⟩ := Interval.containsF_fin.mp (hab2 ▸ hmemb q hq)
      simp only [ieval, hab1, hab2, Interval.min_choice_fin_val]
      rw [Interval.containsF_fin, ← hv]
      exact ⟨min_le_min g1 g3, min_le_min g2 g4⟩
  | max a b iha ihb =>
    intro hwf
    simp only [ievalWF, Bool.and_eq_true] at hwf
    obtain ⟨⟨hwfa, hwfb⟩, _⟩ := hwf
    obtain ⟨hfva, hmema⟩ := iha hwfa
    obtain ⟨hfvb, hmemb⟩ := ihb hwfb
    rcases Interval.fv_iff.mp hfva with ⟨a1, b1, hab1, hle1⟩
    rcases Interval.fv_iff.mp hfvb with ⟨a2, b2, hab2, hle2⟩
    refine ⟨?_, ?_⟩
    · simp only [ieval, hab1, hab2, Interval.max_choice_fin_val, Interval.fv]
      simpa using max_le_max hle1 hle2
    · intro v hv
      simp only [peval] at hv
      rcases peval_fin_or_nan x y z a with hna | ⟨p, hp⟩
      · rw [hna] at hv
        simp at hv
      rcases peval_fin_or_nan x y z b with hnb | ⟨q, hq⟩
      · rw [hnb] at hv
        simp at hv
      rw [hp, hq] at hv
      simp only [F32.pmax_fin_fin, F32.fin.injEq] at hv
      obtain ⟨g1, g2⟩ := Interval.containsF_fin.mp (hab1 ▸ hmema p hp)
      obtain ⟨g3, g4⟩ := Interval.containsF_fin.mp (hab2 ▸ hmemb q hq)
      simp only [ieval, hab1, hab2, Interval.max_choice_fin_val]
      rw [Interval.containsF_fin, ← hv]
      exact ⟨max_le_max g1 g3, max_le_max g2 g4⟩

end Expr

/-!  ## Claim C1: interval soundness.  -/

/-- C1, counterexample: the claim as stated is false.  For the `sqrt`
operation with operand interval `[-1, 1]` (finite and valid) and the point
`x = -1` inside it, the pointwise f32 result is NaN while the interval
returned by `Interval::sqrt` is `[0, 1]`; its bounds are not NaN, so the NaN
pointwise result does not lie within it. -/
theorem C1_counterexample :
    Interval.fv ⟨F32.fin (-1), F32.fin 1⟩ = true ∧
    Interval.containsF ⟨F32.fin (-1), F32.fin 1⟩ (F32.fin (-1)) = true ∧
    Interval.sqrt ⟨F32.fin (-1), F32.fin 1⟩ = ⟨F32.fin 0, F32.fin 1⟩ ∧
    Interval.noNaN (Interval.sqrt ⟨F32.fin (-1), F32.fin 1⟩) = true ∧
    Interval.containsF (Interval.sqrt ⟨F32.fin (-1), F32.fin 1⟩)
      (F32.sqrt (F32.fin (-1))) = false := by
  decide

/-- C1, amended: over finite valid input intervals, whenever the pointwise
result of evaluating an expression (composed of add, sub, neg, mul, abs,
sqrt, min, max) is not NaN and no intermediate interval of the evaluation
has a NaN bound, the pointwise f32 result lies within the interval returned
by interval evaluation; applied to one-operation expressions this is
soundness of each primitive interval operation under the same provisos. -/
theorem C1_amended_enclosure (e : Expr) (X' Y' Z' : Interval)
    (hX : X'.fv = true) (hY : Y'.fv = true) (hZ : Z'.fv = true)
    (x y z : ℚ)
    (hx : X'.containsF (F32.fin x) = true)
    (hy : Y'.containsF (F32.fin y) = true)
    (hz : Z'.containsF (F32.fin z) = true)
    (hwf : Expr.ievalWF X' Y' Z' e = true) (v : ℚ)
    (hv : Expr.peval (F32.fin x) (F32.fin y) (F32.fin z) e = F32.fin v) :
    (Expr.ieval X' Y' Z' e).1.containsF (F32.fin v) = true :=
  (Expr.encl hX hY hZ hx hy hz e hwf).2 v hv

/-- C1, witness: concrete instance of the amended theorem for
`E = min(X, 2)` over `X = [0, 1]`, `Y = Z = [0, 0]` at the point
`(0, 0, 0)`. -/
theorem C1_witness :
    Expr.ievalWF ⟨F32.fin 0, F32.fin 1⟩ ⟨F32.fin 0, F32.fin 0⟩
        ⟨F32.fin 0, F32.fin 0⟩ (Expr.min Expr.X (Expr.const 2)) = true ∧
    Expr.peval (F32.fin 0) (F32.fin 0) (F32.fin 0)
        (Expr.min Expr.X (Expr.const 2)) = F32.fin 0 ∧
    (Expr.ieval ⟨F32.fin 0, F32.fin 1⟩ ⟨F32.fin 0, F32.fin 0⟩
        ⟨F32.fin 0, F32.fin 0⟩
        (Expr.min Expr.X (Expr.const 2))).1.containsF (F32.fin 0) = true :=
  ⟨by decide, by decide,
   C1_amended_enclosure (Expr.min Expr.X (Expr.const 2))
     ⟨F32.fin 0, F32.fin 1⟩ ⟨F32.fin 0, F32.fin 0⟩ ⟨F32.fin 0, F32.fin 0⟩
     (by decide) (by decide) (by decide) 0 0 0
     (by decide) (by decide) (by decide) (by decide) 0 (by decide)⟩

/-!  ## NaN-interval propagation helpers.  -/

namespace Interval

lemma add_nanL (j : Interval) : Interval.add ⟨F32.nan, F32.nan⟩ j = ⟨F32.nan, F32.nan⟩ := by
  simp [Interval.add]

lemma add_nanR (j : Interval) : Interval.add j ⟨F32.nan, F32.nan⟩ = ⟨F32.nan, F32.nan⟩ := by
  simp [Interval.add]

lemma sub_nanL (j : Interval) : Interval.sub ⟨F32.nan, F32.nan⟩ j = ⟨F32.nan, F32.nan⟩ := by
  simp [Interval.sub]

lemma sub_nanR (j : Interval) : Interval.sub j ⟨F32.nan, F32.nan⟩ = ⟨F32.nan, F32.nan⟩ := by
  simp [Interval.sub, F32.sub, F32.neg]

lemma mul_nanL (j : Interval) : Interval.mul ⟨F32.nan, F32.nan⟩ j = ⟨F32.nan, F32.nan⟩ := by
  simp [Interval.mul]

lemma mul_nanR (j : Interval) : Interval.mul j ⟨F32.nan, F32.nan⟩ = ⟨F32.nan, F32.nan⟩ := by
  simp [Interval.mul]

lemma neg_nanI : Interval.neg ⟨F32.nan, F32.nan⟩ = ⟨F32.nan, F32.nan⟩ := rfl

lemma abs_nanI : Interval.abs ⟨F32.nan, F32.nan⟩ = ⟨F32.nan, F32.nan⟩ := by
  simp [Interval.abs, F32.lt]

lemma sqrt_nanI : Interval.sqrt ⟨F32.nan, F32.nan⟩ = ⟨F32.nan, F32.nan⟩ := by
  simp [Interval.sqrt, F32.lt, F32.sqrt]

lemma min_choice_nanL (j : Interval) :
    Interval.min_choice ⟨F32.nan, F32.nan⟩ j = (j, Choice.Both) := by
  simp [Interval.min_choice]

lemma min_choice_nanR (j : Interval) :
    Interval.min_choice j ⟨F32.nan, F32.nan⟩ = (j, Choice.Both) := by
  simp [Interval.min_choice]

lemma max_choice_nanL (j : Interval) :
    Interval.max_choice ⟨F32.nan, F32.nan⟩ j = (j, Choice.Both) := by
  simp [Interval.max_choice]

lemma max_choice_nanR (j : Interval) :
    Interval.max_choice j ⟨F32.nan, F32.nan⟩ = (j, Choice.Both) := by
  simp [Interval.max_choice]

lemma fv_okNew {i : Interval} (h : i.fv = true) : i.okNew = true := by
  rcases fv_iff.mp h with ⟨a, b, rfl, hab⟩
  simp [okNew, hab]

@[simp] lemma okNew_nanI : Interval.okNew ⟨F32.nan, F32.nan⟩ = true := by decide

end Interval

/-!  ## Claim C6: in-band propagation of the empty interval.  -/

/-- C6, counterexample: the claim as stated is false.  `min` with a
`(NaN, NaN)` operand does not return `(NaN, NaN)`: Rust's `f32::min` returns
the other argument when one is NaN, so `min_choice((NaN,NaN), [0,1])`
returns `([0,1], Both)`. -/
theorem C6_counterexample :
    (Interval.min_choice ⟨F32.nan, F32.nan⟩ ⟨F32.fin 0, F32.fin 1⟩).1 =
      ⟨F32.fin 0, F32.fin 1⟩ ∧
    (Interval.min_choice ⟨F32.nan, F32.nan⟩ ⟨F32.fin 0, F32.fin 1⟩).1 ≠
      ⟨F32.nan, F32.nan⟩ := by
  decide

/-- C6, amended: a `(NaN, NaN)` operand propagates in-band (without
panicking) through add, sub, neg, mul, abs and sqrt, producing `(NaN, NaN)`;
`min` and `max`, however, absorb it: with a `(NaN, NaN)` operand they return
the other operand with choice `Both`. -/
theorem C6_amended (j : Interval) :
    Interval.add ⟨F32.nan, F32.nan⟩ j = ⟨F32.nan, F32.nan⟩ ∧
    Interval.add j ⟨F32.nan, F32.nan⟩ = ⟨F32.nan, F32.nan⟩ ∧
    Interval.sub ⟨F32.nan, F32.nan⟩ j = ⟨F32.nan, F32.nan⟩ ∧
    Interval.sub j ⟨F32.nan, F32.nan⟩ = ⟨F32.nan, F32.nan⟩ ∧
    Interval.mul ⟨F32.nan, F32.nan⟩ j = ⟨F32.nan, F32.nan⟩ ∧
    Interval.mul j ⟨F32.nan, F32.nan⟩ = ⟨F32.nan, F32.nan⟩ ∧
    Interval.neg ⟨F32.nan, F32.nan⟩ = ⟨F32.nan, F32.nan⟩ ∧
    Interval.abs ⟨F32.nan, F32.nan⟩ = ⟨F32.nan, F32.nan⟩ ∧
    Interval.sqrt ⟨F32.nan, F32.nan⟩ = ⟨F32.nan, F32.nan⟩ ∧
    Interval.min_choice ⟨F32.nan, F32.nan⟩ j = (j, Choice.Both) ∧
    Interval.min_choice j ⟨F32.nan, F32.nan⟩ = (j, Choice.Both) ∧
    Interval.max_choice ⟨F32.nan, F32.nan⟩ j = (j, Choice.Both) ∧
    Interval.max_choice j ⟨F32.nan, F32.nan⟩ = (j, Choice.Both) :=
  ⟨Interval.add_nanL j, Interval.add_nanR j, Interval.sub_nanL j,
   Interval.sub_nanR j, Interval.mul_nanL j, Interval.mul_nanR j,
   Interval.neg_nanI, Interval.abs_nanI, Interval.sqrt_nanI,
   Interval.min_choice_nanL j, Interval.min_choice_nanR j,
   Interval.max_choice_nanL j, Interval.max_choice_nanR j⟩

/-!  ## Claim C5: the sqrt case analysis.  -/

/-- C5, counterexample: the claim as stated is false on both code paths.
For `[-1, 0]` (where `a < 0 ≤ b`, so the claim requires `[0, √0] = [0,0]`)
the core returns `(NaN, NaN)` because its second branch tests `upper > 0`,
not `upper ≥ 0`.  For `[0, 0]` (where `a ≥ 0`, so the claim requires
`[√0, √0] = [0,0]`) the JIT path returns `(NaN, NaN)` because its first
branch tests `upper ≤ 0`. -/
theorem C5_counterexample :
    Interval.sqrt ⟨F32.fin (-1), F32.fin 0⟩ = ⟨F32.nan, F32.nan⟩ ∧
    (⟨F32.nan, F32.nan⟩ : Interval) ≠ ⟨F32.fin 0, F32.fin 0⟩ ∧
    Interval.sqrtJit ⟨F32.fin 0, F32.fin 0⟩ = ⟨F32.nan, F32.nan⟩ ∧
    Interval.sqrt ⟨F32.fin 0, F32.fin 0⟩ = ⟨F32.fin 0, F32.fin 0⟩ := by
  decide

/-- C5, amended: on finite valid intervals `[a, b]` the core
`Interval::sqrt` returns `[√a, √b]` when `a ≥ 0`, `(NaN,NaN)` when
`a < 0 ∧ b ≤ 0`, and `[0, √b]` when `a < 0 < b`; the JIT `build_sqrt`
returns `(NaN,NaN)` when `b ≤ 0`, `[0, √b]` when `a ≤ 0 < b`, and
`[√a, √b]` when `a > 0`.  The two code paths agree everywhere except on
`[0, 0]`, where the core returns `[0, 0]` and the JIT returns
`(NaN, NaN)`. -/
theorem C5_amended (a b : ℚ) (hab : a ≤ b) :
    (0 ≤ a → Interval.sqrt ⟨F32.fin a, F32.fin b⟩ =
      ⟨F32.fin (F32.fsqrtQ a), F32.fin (F32.fsqrtQ b)⟩) ∧
    (a < 0 → b ≤ 0 → Interval.sqrt ⟨F32.fin a, F32.fin b⟩ =
      ⟨F32.nan, F32.nan⟩) ∧
    (a < 0 → 0 < b → Interval.sqrt ⟨F32.fin a, F32.fin b⟩ =
      ⟨F32.fin 0, F32.fin (F32.fsqrtQ b)⟩) ∧
    (b ≤ 0 → Interval.sqrtJit ⟨F32.fin a, F32.fin b⟩ = ⟨F32.nan, F32.nan⟩) ∧
    (a ≤ 0 → 0 < b → Interval.sqrtJit ⟨F32.fin a, F32.fin b⟩ =
      ⟨F32.fin 0, F32.fin (F32.fsqrtQ b)⟩) ∧
    (0 < a → Interval.sqrtJit ⟨F32.fin a, F32.fin b⟩ =
      ⟨F32.fin (F32.fsqrtQ a), F32.fin (F32.fsqrtQ b)⟩) ∧
    (¬(a = 0 ∧ b = 0) → Interval.sqrtJit ⟨F32.fin a, F32.fin b⟩ =
      Interval.sqrt ⟨F32.fin a, F32.fin b⟩) := by
  have hq0 : F32.fsqrtQ 0 = 0 := by decide
  refine ⟨fun h => Interval.sqrt_finI_nonneg h hab,
    fun h h2 => Interval.sqrt_fin_nonpos h h2,
    fun h h2 => Interval.sqrt_fin_strad h h2,
    fun h => ?_, fun h h2 => ?_, fun h => ?_, fun h => ?_⟩
  · simp only [Interval.sqrtJit, Interval.lower_mk, Interval.upper_mk]
    rw [if_pos (by simpa using h)]
  · simp only [Interval.sqrtJit, Interval.lower_mk, Interval.upper_mk]
    rw [if_neg (by simp [not_le.mpr h2]), if_pos (by simpa using h),
      F32.sqrt_fin_nonneg b (le_of_lt h2)]
  · simp only [Interval.sqrtJit, Interval.lower_mk, Interval.upper_mk]
    rw [if_neg (by simp [not_le.mpr (lt_of_lt_of_le h hab)]),
      if_neg (by simp [not_le.mpr h]),
      F32.sqrt_fin_nonneg a (le_of_lt h), F32.sqrt_fin_nonneg b
        (le_of_lt (lt_of_lt_of_le h hab))]
  · rcases lt_trichotomy a 0 with ha | ha | ha
    · rcases le_or_lt b 0 with hb | hb
      · rw [Interval.sqrt_fin_nonpos ha hb]
        simp only [Interval.sqrtJit, Interval.lower_mk, Interval.upper_mk]
        rw [if_pos (by simpa using hb)]
      · rw [Interval.sqrt_fin_strad ha hb]
        simp only [Interval.sqrtJit, Interval.lower_mk, Interval.upper_mk]
        rw [if_neg (by simp [not_le.mpr hb]), if_pos (by simp [le_of_lt ha]),
          F32.sqrt_fin_nonneg b (le_of_lt hb)]
    · subst ha
      have hb : 0 < b := by
        rcases lt_or_eq_of_le hab with hb | hb
        · exact hb
        · exact absurd ⟨rfl, hb.symm⟩ h
      rw [Interval.sqrt_finI_nonneg (le_refl 0) hab, hq0]
      simp only [Interval.sqrtJit, Interval.lower_mk, Interval.upper_mk]
      rw [if_neg (by simp [not_le.mpr hb]), if_pos (by simp),
        F32.sqrt_fin_nonneg b (le_of_lt hb)]
    · rw [Interval.sqrt_finI_nonneg (le_of_lt ha) hab]
      simp only [Interval.sqrtJit, Interval.lower_mk, Interval.upper_mk]
      rw [if_neg (by simp [not_le.mpr (lt_of_lt_of_le ha hab)]),
        if_neg (by simp [not_le.mpr ha]),
        F32.sqrt_fin_nonneg a (le_of_lt ha), F32.sqrt_fin_nonneg b
          (le_of_lt (lt_of_lt_of_le ha hab))]

/-- C5, witness: concrete instance of the amended theorem at `[0, 1]`. -/
theorem C5_witness :
    Interval.sqrt ⟨F32.fin 0, F32.fin 1⟩ = ⟨F32.fin 0, F32.fin 1⟩ := by
  have h := (C5_amended 0 1 (by norm_num)).1 (le_refl 0)
  rw [h]
  decide

/-!  ## Claim C7: the interval invariant.  -/

/-- C7, counterexample: the claim as stated is false.  The operands
`[-∞, 0]` and `[+∞, +∞]` both satisfy the constructor invariant, but their
sum is `(NaN, +∞)`, which trips the assertion of `Interval::new`
(`upper >= lower` is false and the bounds are not both NaN). -/
theorem C7_counterexample :
    Interval.okNew ⟨F32.ninf, F32.fin 0⟩ = true ∧
    Interval.okNew ⟨F32.inf, F32.inf⟩ = true ∧
    Interval.add ⟨F32.ninf, F32.fin 0⟩ ⟨F32.inf, F32.inf⟩ =
      ⟨F32.nan, F32.inf⟩ ∧
    Interval.okNew (Interval.add ⟨F32.ninf, F32.fin 0⟩ ⟨F32.inf, F32.inf⟩) =
      false := by
  decide

/-- C7, amended: `Interval::new` asserts the invariant, and every operation
(add, sub, neg, mul, abs, sqrt, min, max) preserves it when each operand is
a finite valid interval or the empty interval `(NaN, NaN)`; with infinite
bounds, `add`/`sub` can meet opposite infinities and produce a mixed
`(NaN, non-NaN)` pair that trips the assertion. -/
theorem C7_amended (i j : Interval)
    (hi : i.fv = true ∨ i = ⟨F32.nan, F32.nan⟩)
    (hj : j.fv = true ∨ j = ⟨F32.nan, F32.nan⟩) :
    (Interval.add i j).okNew = true ∧
    (Interval.sub i j).okNew = true ∧
    i.neg.okNew = true ∧
    (Interval.mul i j).okNew = true ∧
    i.abs.okNew = true ∧
    i.sqrt.okNew = true ∧
    ((Interval.min_choice i j).1).okNew = true ∧
    ((Interval.max_choice i j).1).okNew = true := by
  have unary : i.neg.okNew = true ∧ i.abs.okNew = true ∧ i.sqrt.okNew = true := by
    rcases hi with hi | rfl
    · rcases Interval.fv_iff.mp hi with ⟨a, b, rfl, hab⟩
      refine ⟨?_, ?_, ?_⟩
      · rw [Interval.neg_finI]
        exact Interval.fv_okNew (by simp [Interval.fv]; linarith)
      · rcases lt_or_le a 0 with ha | ha
        · rcases le_or_lt b 0 with hb | hb
          · rw [Interval.abs_fin_nonpos ha hb]
            exact Interval.fv_okNew (by simp [Interval.fv]; linarith)
          · rw [Interval.abs_fin_strad ha hb]
            exact Interval.fv_okNew (by
              simp only [Interval.fv, decide_eq_true_eq]
              exact le_max_of_le_left (le_of_lt hb))
        · rw [Interval.abs_fin_nonneg ha]
          exact Interval.fv_okNew (by simp [Interval.fv, hab])
      · rcases lt_or_le a 0 with ha | ha
        · rcases le_or_lt b 0 with hb | hb
          · rw [Interval.sqrt_fin_nonpos ha hb]
            exact Interval.okNew_nanI
          · rw [Interval.sqrt_fin_strad ha hb]
            exact Interval.fv_okNew (by
              simp only [Interval.fv, decide_eq_true_eq]
              exact F32.fsqrtQ_nonneg b)
        · rw [Interval.sqrt_finI_nonneg ha hab]
          exact Interval.fv_okNew (by
            simp only [Interval.fv, decide_eq_true_eq]
            exact F32.fsqrtQ_mono hab)
    · exact ⟨by rw [Interval.neg_nanI]; exact Interval.okNew_nanI,
        by rw [Interval.abs_nanI]; exact Interval.okNew_nanI,
        by rw [Interval.sqrt_nanI]; exact Interval.okNew_nanI⟩
  rcases hi with hi | rfl
  · rcases hj with hj | rfl
    · rcases Interval.fv_iff.mp hi with ⟨a, b, hab1, hle1⟩
      rcases Interval.fv_iff.mp hj with ⟨c, d, hab2, hle2⟩
      subst hab1
      subst hab2
      refine ⟨?_, ?_, unary.1, ?_, unary.2.1, unary.2.2, ?_, ?_⟩
      · rw [Interval.add_fin]
        exact Interval.fv_okNew (by simp [Interval.fv]; linarith)
      · rw [Interval.sub_fin]
        exact Interval.fv_okNew (by simp [Interval.fv]; linarith)
      · rw [Interval.mul_fin]
        exact Interval.fv_okNew (by
          simp only [Interval.fv, decide_eq_true_eq]
          exact le_trans (qmin4_le (le_refl a) hle1 (le_refl c) hle2)
            (qmax4_ge (le_refl a) hle1 (le_refl c) hle2))
      · rw [Interval.min_choice_fin_val]
        exact Interval.fv_okNew (by
          simp only [Interval.fv, decide_eq_true_eq]
          exact min_le_min hle1 hle2)
      · rw [Interval.max_choice_fin_val]
        exact Interval.fv_okNew (by
          simp only [Interval.fv, decide_eq_true_eq]
          exact max_le_max hle1 hle2)
    · refine ⟨?_, ?_, unary.1, ?_, unary.2.1, unary.2.2, ?_, ?_⟩
      · rw [Interval.add_nanR]
        exact Interval.okNew_nanI
      · rw [Interval.sub_nanR]
        exact Interval.okNew_nanI
      · rw [Interval.mul_nanR]
        exact Interval.okNew_nanI
      · rw [Interval.min_choice_nanR]
        exact Interval.fv_okNew hi
      · rw [Interval.max_choice_nanR]
        exact Interval.fv_okNew hi
  · refine ⟨?_, ?_, unary.1, ?_, unary.2.1, unary.2.2, ?_, ?_⟩
    · rw [Interval.add_nanL]
      exact Interval.okNew_nanI
    · rw [Interval.sub_nanL]
      exact Interval.okNew_nanI
    · rw [Interval.mul_nanL]
      exact Interval.okNew_nanI
    · rw [Interval.min_choice_nanL]
      rcases hj with hj | rfl
      · exact Interval.fv_okNew hj
      · exact Interval.okNew_nanI
    · rw [Interval.max_choice_nanL]
      rcases hj with hj | rfl
      · exact Interval.fv_okNew hj
      · exact Interval.okNew_nanI

/-- C7, witness: concrete instance of the amended theorem at `[0,1]`,
`[2,3]`. -/
theorem C7_witness :
    Interval.okNew (Interval.add ⟨F32.fin 0, F32.fin 1⟩ ⟨F32.fin 2, F32.fin 3⟩)
      = true :=
  (C7_amended ⟨F32.fin 0, F32.fin 1⟩ ⟨F32.fin 2, F32.fin 3⟩
    (Or.inl (by decide)) (Or.inl (by decide))).1

/-!  ## Order theory of non-NaN f32 values.  -/

namespace F32

lemma le_no_nan {u v : F32} (h : le u v = true) : u ≠ nan ∧ v ≠ nan := by
  cases u <;> cases v <;> simp_all [le]

lemma lt_no_nan {u v : F32} (h : lt u v = true) : u ≠ nan ∧ v ≠ nan := by
  cases u <;> cases v <;> simp_all [lt]

lemma le_trans3 {u v w : F32} (h1 : le u v = true) (h2 : le v w = true) :
    le u w = true := by
  cases u <;> cases v <;> cases w <;> simp_all [le] <;> linarith

lemma lt_of_le_of_lt3 {u v w : F32} (h1 : le u v = true) (h2 : lt v w = true) :
    lt u w = true := by
  cases u <;> cases v <;> cases w <;> simp_all [le, lt] <;> linarith

lemma lt_of_lt_of_le3 {u v w : F32} (h1 : lt u v = true) (h2 : le v w = true) :
    lt u w = true := by
  cases u <;> cases v <;> cases w <;> simp_all [le, lt] <;> linarith

lemma lt_irr (u : F32) : lt u u = false := by
  cases u <;> simp [lt]

lemma lt_imp_le {u v : F32} (h : lt u v = true) : le u v = true := by
  cases u <;> cases v <;> simp_all [le, lt] <;> linarith

lemma le_false_of_lt {u v : F32} (h : lt v u = true) : le u v = false := by
  cases u <;> cases v <;> simp_all [le, lt] <;> linarith

lemma lt_false_of_le {u v : F32} (h : le u v = true) : lt v u = false := by
  cases u <;> cases v <;> simp_all [le, lt] <;> linarith

lemma le_of_not_lt3 {u v : F32} (hu : u ≠ nan) (hv : v ≠ nan)
    (h : lt u v = false) : le v u = true := by
  cases u <;> cases v <;> simp_all [le, lt] <;> linarith

lemma fmin_eq_left {u v : F32} (h : le u v = true) : fmin u v = u := by
  obtain ⟨hu, hv⟩ := le_no_nan h
  rw [fmin, if_neg hu, if_neg hv, if_pos h]

lemma fmin_eq_right {u v : F32} (hv : v ≠ nan) (h : le u v = false) :
    fmin u v = v := by
  by_cases hu : u = nan
  · rw [fmin, if_pos hu]
  · rw [fmin, if_neg hu, if_neg hv, if_neg (by simp [h])]

lemma fmax_eq_right {u v : F32} (h : le u v = true) : fmax u v = v := by
  obtain ⟨hu, hv⟩ := le_no_nan h
  rw [fmax, if_neg hu, if_neg hv, if_pos h]

lemma fmax_eq_left {u v : F32} (hu : u ≠ nan) (h : le u v = false) :
    fmax u v = u := by
  by_cases hv : v = nan
  · rw [fmax, if_neg hu, if_pos hv]
  · rw [fmax, if_neg hu, if_neg hv, if_neg (by simp [h])]

lemma fminA_eq_fmin {u v : F32} (hu : u ≠ nan) (hv : v ≠ nan) :
    fminA u v = fmin u v := by
  rw [fminA, fmin, if_neg (by simp [hu, hv]), if_neg hu, if_neg hv]

lemma fmaxA_eq_fmax {u v : F32} (hu : u ≠ nan) (hv : v ≠ nan) :
    fmaxA u v = fmax u v := by
  rw [fmaxA, fmax, if_neg (by simp [hu, hv]), if_neg hu, if_neg hv]

end F32

/-!  ## Claim C3: min/max values, choices, and the JIT agreement.  -/

/-- The core and JIT interval `min` agree on valid (non-NaN) intervals. -/
lemma Interval.minJit_eq_min_choice {i j : Interval} (hi : i.real = true)
    (hj : j.real = true) : i.minJit j = i.min_choice j := by
  simp only [Interval.real] at hi hj
  have hil : i.lower ≠ F32.nan := (F32.le_no_nan hi).1
  have hiu : i.upper ≠ F32.nan := (F32.le_no_nan hi).2
  have hjl : j.lower ≠ F32.nan := (F32.le_no_nan hj).1
  have hju : j.upper ≠ F32.nan := (F32.le_no_nan hj).2
  by_cases h1 : F32.lt j.upper i.lower = true
  · have h2 : F32.lt i.upper j.lower = false := by
      by_contra hcon
      have h2' : F32.lt i.upper j.lower = true := by
        cases hx : F32.lt i.upper j.lower
        · exact absurd hx hcon
        · rfl
      have : F32.lt j.upper j.lower = true :=
        F32.lt_of_lt_of_le3 (F32.lt_of_lt_of_le3 h1 hi) (F32.lt_imp_le h2')
      rw [F32.le_false_of_lt this] at hj
      exact Bool.false_ne_true hj
    have hv1 : F32.fmin i.lower j.lower = j.lower :=
      F32.fmin_eq_right hjl (F32.le_false_of_lt (F32.lt_of_le_of_lt3 hj h1))
    have hv2 : F32.fmin i.upper j.upper = j.upper :=
      F32.fmin_eq_right hju (F32.le_false_of_lt (F32.lt_of_lt_of_le3 h1 hi))
    simp only [Interval.minJit, Interval.min_choice]
    rw [if_pos h1, h2, if_neg (by simp), if_pos h1, hv1, hv2]
  · by_cases h2 : F32.lt i.upper j.lower = true
    · have hv1 : F32.fmin i.lower j.lower = i.lower :=
        F32.fmin_eq_left (F32.le_trans3 hi (F32.lt_imp_le h2))
      have hv2 : F32.fmin i.upper j.upper = i.upper :=
        F32.fmin_eq_left (F32.lt_imp_le (F32.lt_of_lt_of_le3 h2 hj))
      simp only [Interval.minJit, Interval.min_choice]
      rw [if_neg (by simp [h1]), if_pos h2, if_pos h2, hv1, hv2]
    · simp only [Interval.minJit, Interval.min_choice]
      rw [if_neg (by simp [h1]), if_neg (by simp [h2]), if_neg (by simp [h2]),
        if_neg (by simp [h1]), F32.fminA_eq_fmin hil hjl,
        F32.fminA_eq_fmin hiu hju]

/-- The core and JIT interval `max` agree on valid (non-NaN) intervals. -/
lemma Interval.maxJit_eq_max_choice {i j : Interval} (hi : i.real = true)
    (hj : j.real = true) : i.maxJit j = i.max_choice j := by
  simp only [Interval.real] at hi hj
  have hil : i.lower ≠ F32.nan := (F32.le_no_nan hi).1
  have hiu : i.upper ≠ F32.nan := (F32.le_no_nan hi).2
  have hjl : j.lower ≠ F32.nan := (F32.le_no_nan hj).1
  have hju : j.upper ≠ F32.nan := (F32.le_no_nan hj).2
  by_cases h1 : F32.lt j.upper i.lower = true
  · have hv1 : F32.fmax i.lower j.lower = i.lower :=
      F32.fmax_eq_left hil (F32.le_false_of_lt (F32.lt_of_le_of_lt3 hj h1))
    have hv2 : F32.fmax i.upper j.upper = i.upper :=
      F32.fmax_eq_left hiu (F32.le_false_of_lt (F32.lt_of_lt_of_le3 h1 hi))
    simp only [Interval.maxJit, Interval.max_choice]
    rw [if_pos h1, if_pos h1, hv1, hv2]
  · by_cases h2 : F32.lt i.upper j.lower = true
    · have h1' : F32.lt j.upper i.lower = false := by
        cases hx : F32.lt j.upper i.lower
        · rfl
        · exact absurd hx (by simp [h1])
      have hv1 : F32.fmax i.lower j.lower = j.lower :=
        F32.fmax_eq_right (F32.le_trans3 hi (F32.lt_imp_le h2))
      have hv2 : F32.fmax i.upper j.upper = j.upper :=
        F32.fmax_eq_right (F32.lt_imp_le (F32.lt_of_lt_of_le3 h2 hj))
      simp only [Interval.maxJit, Interval.max_choice]
      rw [if_neg (by simp [h1]), if_pos h2, if_neg (by simp [h1']),
        if_pos h2, hv1, hv2]
    · simp only [Interval.maxJit, Interval.max_choice]
      rw [if_neg (by simp [h1]), if_neg (by simp [h2]), if_neg (by simp [h1]),
        if_neg (by simp [h2]), F32.fmaxA_eq_fmax hil hjl,
        F32.fmaxA_eq_fmax hiu hju]

/-- C3: for valid (non-NaN) intervals `[a,b]`, `[c,d]`, interval `min`
returns the value `[min(a,c), min(b,d)]` with choice `Left` exactly when
`b < c`, `Right` exactly when `d < a` and not `b < c`, and `Both` otherwise;
`max` returns `[max(a,c), max(b,d)]` with choice `Left` exactly when
`a > d`, `Right` exactly when `c > b` and not `a > d`, and `Both` otherwise;
and the JIT `build_min`/`build_max` code paths agree exactly with the core
`min_choice`/`max_choice`. -/
theorem C3_minmax (i j : Interval) (hi : i.real = true) (hj : j.real = true) :
    (i.min_choice j).1 =
      ⟨F32.fmin i.lower j.lower, F32.fmin i.upper j.upper⟩ ∧
    ((i.min_choice j).2 = Choice.Left ↔ F32.lt i.upper j.lower = true) ∧
    ((i.min_choice j).2 = Choice.Right ↔
      (F32.lt j.upper i.lower = true ∧ F32.lt i.upper j.lower = false)) ∧
    ((i.min_choice j).2 = Choice.Both ↔
      (F32.lt i.upper j.lower = false ∧ F32.lt j.upper i.lower = false)) ∧
    i.minJit j = i.min_choice j ∧
    (i.max_choice j).1 =
      ⟨F32.fmax i.lower j.lower, F32.fmax i.upper j.upper⟩ ∧
    ((i.max_choice j).2 = Choice.Left ↔ F32.lt j.upper i.lower = true) ∧
    ((i.max_choice j).2 = Choice.Right ↔
      (F32.lt i.upper j.lower = true ∧ F32.lt j.upper i.lower = false)) ∧
    ((i.max_choice j).2 = Choice.Both ↔
      (F32.lt j.upper i.lower = false ∧ F32.lt i.upper j.lower = false)) ∧
    i.maxJit j = i.max_choice j := by
  refine ⟨rfl, ?_, ?_, ?_, Interval.minJit_eq_min_choice hi hj,
    rfl, ?_, ?_, ?_, Interval.maxJit_eq_max_choice hi hj⟩ <;>
    simp only [Interval.min_choice, Interval.max_choice] <;>
    rcases hc1 : F32.lt i.upper j.lower with _ | _ <;>
    rcases hc2 : F32.lt j.upper i.lower with _ | _ <;>
    simp [hc1, hc2]

/-- C3, witness: concrete instance at `[0,1]`, `[2,3]` — the JIT and core
`min` agree (both choosing `Left` with value `[0,1]`). -/
theorem C3_witness :
    Interval.minJit ⟨F32.fin 0, F32.fin 1⟩ ⟨F32.fin 2, F32.fin 3⟩ =
      Interval.min_choice ⟨F32.fin 0, F32.fin 1⟩ ⟨F32.fin 2, F32.fin 3⟩ ∧
    Interval.min_choice ⟨F32.fin 0, F32.fin 1⟩ ⟨F32.fin 2, F32.fin 3⟩ =
      (⟨F32.fin 0, F32.fin 1⟩, Choice.Left) :=
  ⟨(C3_minmax ⟨F32.fin 0, F32.fin 1⟩ ⟨F32.fin 2, F32.fin 3⟩
      (by decide) (by decide)).2.2.2.2.1, by decide⟩

/-!  ## Claim C4: recip.  -/

/-- C4: the JIT `build_recip` satisfies the contract — `(NaN,NaN)` when
`0 ∈ [a,b]`, `[1/b, 1/a]` otherwise — on every valid (non-NaN) interval,
but the core `Interval::recip` is `todo!()` and panics (modelled as `none`)
on every input, contradicting the claim's "in every code path … never
panics". -/
theorem C4_recip (i : Interval) (hi : i.real = true) :
    (Interval.recipJit i =
      if F32.le i.lower (F32.fin 0) && F32.le (F32.fin 0) i.upper
      then ⟨F32.nan, F32.nan⟩
      else ⟨F32.inv i.upper, F32.inv i.lower⟩) ∧
    Interval.recip i = none := by
  simp only [Interval.real] at hi
  have hil : i.lower ≠ F32.nan := (F32.le_no_nan hi).1
  have hiu : i.upper ≠ F32.nan := (F32.le_no_nan hi).2
  refine ⟨?_, rfl⟩
  by_cases h1 : F32.lt (F32.fin 0) i.lower = true
  · have : F32.le i.lower (F32.fin 0) = false := F32.le_false_of_lt h1
    rw [Interval.recipJit, if_pos h1, if_neg (by simp [this])]
  · by_cases h2 : F32.lt i.upper (F32.fin 0) = true
    · have : F32.le (F32.fin 0) i.upper = false := F32.le_false_of_lt h2
      rw [Interval.recipJit, if_neg (by simp [h1]), if_pos h2,
        if_neg (by simp [this])]
    · have hb1 : F32.lt (F32.fin 0) i.lower = false := by
        cases hx : F32.lt (F32.fin 0) i.lower
        · rfl
        · exact absurd hx (by simp [h1])
      have hb2 : F32.lt i.upper (F32.fin 0) = false := by
        cases hx : F32.lt i.upper (F32.fin 0)
        · rfl
        · exact absurd hx (by simp [h2])
      have hc1 : F32.le i.lower (F32.fin 0) = true :=
        F32.le_of_not_lt3 (by simp) hil hb1
      have hc2 : F32.le (F32.fin 0) i.upper = true :=
        F32.le_of_not_lt3 hiu (by simp) hb2
      rw [Interval.recipJit, if_neg (by simp [h1]), if_neg (by simp [h2]),
        if_pos (by simp [hc1, hc2])]

/-- C4, witness: at `[1,2]` the JIT recip returns `[1/2, 1]` while the core
one panics. -/
theorem C4_witness :
    Interval.recipJit ⟨F32.fin 1, F32.fin 2⟩ =
      ⟨F32.fin (mkRat 1 2), F32.fin 1⟩ ∧
    Interval.recip ⟨F32.fin 1, F32.fin 2⟩ = none := by
  have h := C4_recip ⟨F32.fin 1, F32.fin 2⟩ (by decide)
  refine ⟨?_, h.2⟩
  rw [h.1]
  decide

/-!  ## Claim C10: storage reclamation.  -/

/-- C10: `Evaluator::take` returns `Some(storage)` exactly when the
evaluator is the unique owner of the executable mapping (the `Arc` strong
count is 1, the semantics of `Arc::try_unwrap`), and in particular returns
`None` on any handle that shares the mapping with a live clone (`clone`
bumps the shared strong count, so both the clone and the original see a
count of at least 2). -/
theorem C10_take (h : JitHandle) (hlive : 1 ≤ h.strong) :
    (h.take = some h.mmap ↔ h.strong = 1) ∧
    (h.take = none ↔ 2 ≤ h.strong) ∧
    h.clone.take = none ∧
    2 ≤ h.clone.strong := by
  refine ⟨?_, ?_, ?_, ?_⟩
  · constructor
    · intro ht
      by_contra hne
      rw [JitHandle.take, if_neg hne] at ht
      exact Option.noConfusion ht
    · intro h1
      rw [JitHandle.take, if_pos h1]
  · constructor
    · intro ht
      rcases Nat.lt_or_ge h.strong 2 with h2 | h2
      · exfalso
        have h1 : h.strong = 1 := le_antisymm (Nat.lt_succ_iff.mp h2) hlive
        rw [JitHandle.take, if_pos h1] at ht
        exact Option.noConfusion ht
      · exact h2
    · intro h2
      rw [JitHandle.take, if_neg (by omega)]
  · rw [JitHandle.take, JitHandle.clone, if_neg (by simp; omega)]
  · simp [JitHandle.clone]
    omega

/-- C10, witness: a fresh handle (strong count 1) relinquishes its mapping;
its clone does not. -/
theorem C10_witness :
    JitHandle.take ⟨1, 7⟩ = some 7 ∧
    JitHandle.take (JitHandle.clone ⟨1, 7⟩) = none :=
  ⟨(C10_take ⟨1, 7⟩ (by decide)).1.mpr rfl, (C10_take ⟨1, 7⟩ (by decide)).2.2.1⟩

/-!  ## Claim C8: trail writes, OR-merging, and the simplify flag.  -/

namespace Expr

/-- `getD` of the last element of a two-segment trail. -/
lemma getD_two_append_last (t1 t2 : List Choice) (c : Choice) :
    ((t1 ++ t2) ++ [c]).getD (t1.length + t2.length) Choice.Unknown = c := by
  rw [List.getD_append_right _ _ _ _ (by simp), List.length_append]
  simp

/-- `getD` in the first segment of a two-segment trail. -/
lemma getD_two_append_first (t1 t2 : List Choice) (c : Choice) (i : Nat)
    (h : i < t1.length) :
    ((t1 ++ t2) ++ [c]).getD i Choice.Unknown = t1.getD i Choice.Unknown := by
  rw [List.getD_append _ _ _ _ (by simp; omega), List.getD_append _ _ _ _ h]

/-- `getD` in the second segment of a two-segment trail. -/
lemma getD_two_append_mid (t1 t2 : List Choice) (c : Choice) (i : Nat)
    (h1 : t1.length ≤ i) (h2 : i < t1.length + t2.length) :
    ((t1 ++ t2) ++ [c]).getD i Choice.Unknown =
      t2.getD (i - t1.length) Choice.Unknown := by
  rw [List.getD_append _ _ _ _ (by simp; omega),
    List.getD_append_right _ _ _ _ h1]

/-- Behaviour of one JIT evaluation pass: the returned interval is the JIT
interval result; the trail pointer advances by the number of emitted
choices; the flag is set exactly when a `Left`/`Right` was emitted (or it
was set on entry); and position `p + k` of the buffer is OR-merged with the
`k`-th emitted choice, all other positions untouched. -/
lemma evalW_spec (X' Y' Z' : Interval) (e : Expr) :
    ∀ (arr : Nat → Choice) (p : Nat) (s : Bool),
      (evalW X' Y' Z' e arr p s).ival = (ievalJ X' Y' Z' e).1 ∧
      (evalW X' Y' Z' e arr p s).pos = p + (ievalJ X' Y' Z' e).2.length ∧
      (evalW X' Y' Z' e arr p s).flag =
        (s || (ievalJ X' Y' Z' e).2.any Choice.isLR) ∧
      ∀ n, (evalW X' Y' Z' e arr p s).arr n =
        (if p ≤ n ∧ n < p + (ievalJ X' Y' Z' e).2.length
         then (arr n).orc ((ievalJ X' Y' Z' e).2.getD (n - p) Choice.Unknown)
         else arr n) := by
  induction e with
  | X =>
    intro arr p s
    refine ⟨rfl, by simp [evalW, ievalJ], by simp [evalW, ievalJ], fun n => ?_⟩
    simp only [evalW, ievalJ, List.length_nil]
    rw [if_neg (by omega)]
  | Y =>
    intro arr p s
    refine ⟨rfl, by simp [evalW, ievalJ], by simp [evalW, ievalJ], fun n => ?_⟩
    simp only [evalW, ievalJ, List.length_nil]
    rw [if_neg (by omega)]
  | Z =>
    intro arr p s
    refine ⟨rfl, by simp [evalW, ievalJ], by simp [evalW, ievalJ], fun n => ?_⟩
    simp only [evalW, ievalJ, List.length_nil]
    rw [if_neg (by omega)]
  | const q =>
    intro arr p s
    refine ⟨rfl, by simp [evalW, ievalJ], by simp [evalW, ievalJ], fun n => ?_⟩
    simp only [evalW, ievalJ, List.length_nil]
    rw [if_neg (by omega)]
  | neg e ih =>
    intro arr p s
    obtain ⟨i1, i2, i3, i4⟩ := ih arr p s
    exact ⟨by simp only [evalW, ievalJ]; rw [i1],
      by simp only [evalW, ievalJ]; rw [i2],
      by simp only [evalW, ievalJ]; rw [i3],
      fun n => by simp only [evalW, ievalJ]; rw [i4 n]⟩
  | abs e ih =>
    intro arr p s
    obtain ⟨i1, i2, i3, i4⟩ := ih arr p s
    exact ⟨by simp only [evalW, ievalJ]; rw [i1],
      by simp only [evalW, ievalJ]; rw [i2],
      by simp only [evalW, ievalJ]; rw [i3],
      fun n => by simp only [evalW, ievalJ]; rw [i4 n]⟩
  | sqrt e ih =>
    intro arr p s
    obtain ⟨i1, i2, i3, i4⟩ := ih arr p s
    exact ⟨by simp only [evalW, ievalJ]; rw [i1],
      by simp only [evalW, ievalJ]; rw [i2],
      by simp only [evalW, ievalJ]; rw [i3],
      fun n => by simp only [evalW, ievalJ]; rw [i4 n]⟩
  | add a b iha ihb =>
    intro arr p s
    obtain ⟨i1a, i2a, i3a, i4a⟩ := iha arr p s
    obtain ⟨i1b, i2b, i3b, i4b⟩ :=
      ihb (evalW X' Y' Z' a arr p s).arr (evalW X' Y' Z' a arr p s).pos
        (evalW X' Y' Z' a arr p s).flag
    refine ⟨by simp only [evalW, ievalJ]; rw [i1a, i1b], ?_, ?_, fun n => ?_⟩
    · simp only [evalW, ievalJ, List.length_append]
      rw [i2b, i2a]
      omega
    · simp only [evalW, ievalJ, List.any_append]
      rw [i3b, i3a, Bool.or_assoc]
    · simp only [evalW, ievalJ]
      rw [i4b n, i2a]
      by_cases h1 : p ≤ n ∧ n < p + (ievalJ X' Y' Z' a).2.length
      · rw [if_neg (by omega), i4a n, if_pos h1, if_pos (by
          simp only [List.length_append]; omega)]
        rw [List.getD_append _ _ _ _ (by omega)]
      · by_cases h2 : p + (ievalJ X' Y' Z' a).2.length ≤ n ∧
            n < p + (ievalJ X' Y' Z' a).2.length + (ievalJ X' Y' Z' b).2.length
        · rw [if_pos (by omega), i4a n, if_neg (by omega), if_pos (by
            simp only [List.length_append]; omega)]
          rw [List.getD_append_right _ _ _ _ (by omega)]
          congr 2
          omega
        · rw [if_neg (by omega), i4a n, if_neg (by omega), if_neg (by
            simp only [List.length_append]; omega)]
  | sub a b iha ihb =>
    intro arr p s
    obtain ⟨i1a, i2a, i3a, i4a⟩ := iha arr p s
    obtain ⟨i1b, i2b, i3b, i4b⟩ :=
      ihb (evalW X' Y' Z' a arr p s).arr (evalW X' Y' Z' a arr p s).pos
        (evalW X' Y' Z' a arr p s).flag
    refine ⟨by simp only [evalW, ievalJ]; rw [i1a, i1b], ?_, ?_, fun n => ?_⟩
    · simp only [evalW, ievalJ, List.length_append]
      rw [i2b, i2a]
      omega
    · simp only [evalW, ievalJ, List.any_append]
      rw [i3b, i3a, Bool.or_assoc]
    · simp only [evalW, ievalJ]
      rw [i4b n, i2a]
      by_cases h1 : p ≤ n ∧ n < p + (ievalJ X' Y' Z' a).2.length
      · rw [if_neg (by omega), i4a n, if_pos h1, if_pos (by
          simp only [List.length_append]; omega)]
        rw [List.getD_append _ _ _ _ (by omega)]
      · by_cases h2 : p + (ievalJ X' Y' Z' a).2.length ≤ n ∧
            n < p + (ievalJ X' Y' Z' a).2.length + (ievalJ X' Y' Z' b).2.length
        · rw [if_pos (by omega), i4a n, if_neg (by omega), if_pos (by
            simp only [List.length_append]; omega)]
          rw [List.getD_append_right _ _ _ _ (by omega)]
          congr 2
          omega
        · rw [if_neg (by omega), i4a n, if_neg (by omega), if_neg (by
            simp only [List.length_append]; omega)]
  | mul a b iha ihb =>
    intro arr p s
    obtain ⟨i1a, i2a, i3a, i4a⟩ := iha arr p s
    obtain ⟨i1b, i2b, i3b, i4b⟩ :=
      ihb (evalW X' Y' Z' a arr p s).arr (evalW X' Y' Z' a arr p s).pos
        (evalW X' Y' Z' a arr p s).flag
    refine ⟨by simp only [evalW, ievalJ]; rw [i1a, i1b], ?_, ?_, fun n => ?_⟩
    · simp only [evalW, ievalJ, List.length_append]
      rw [i2b, i2a]
      omega
    · simp only [evalW, ievalJ, List.any_append]
      rw [i3b, i3a, Bool.or_assoc]
    · simp only [evalW, ievalJ]
      rw [i4b n, i2a]
      by_cases h1 : p ≤ n ∧ n < p + (ievalJ X' Y' Z' a).2.length
      · rw [if_neg (by omega), i4a n, if_pos h1, if_pos (by
          simp only [List.length_append]; omega)]
        rw [List.getD_append _ _ _ _ (by omega)]
      · by_cases h2 : p + (ievalJ X' Y' Z' a).2.length ≤ n ∧
            n < p + (ievalJ X' Y' Z' a).2.length + (ievalJ X' Y' Z' b).2.length
        · rw [if_pos (by omega), i4a n, if_neg (by omega), if_pos (by
            simp only [List.length_append]; omega)]
          rw [List.getD_append_right _ _ _ _ (by omega)]
          congr 2
          omega
        · rw [if_neg (by omega), i4a n, if_neg (by omega), if_neg (by
            simp only [List.length_append]; omega)]
  | min a b iha ihb =>
    intro arr p s
    obtain ⟨i1a, i2a, i3a, i4a⟩ := iha arr p s
    obtain ⟨i1b, i2b, i3b, i4b⟩ :=
      ihb (evalW X' Y' Z' a arr p s).arr (evalW X' Y' Z' a arr p s).pos
        (evalW X' Y' Z' a arr p s).flag
    refine ⟨?_, ?_, ?_, fun n => ?_⟩
    · simp only [evalW, ievalJ]
      rw [i1b, i1a]
    · simp only [evalW, ievalJ, List.length_append, List.length_cons,
        List.length_nil]
      rw [i2b, i2a]
      omega
    · simp only [evalW, ievalJ, List.any_append, List.any_cons, List.any_nil]
      rw [i3b, i1b, i3a, i1a]
      cases s <;> cases ((ievalJ X' Y' Z' a).2.any Choice.isLR) <;>
        cases ((ievalJ X' Y' Z' b).2.any Choice.isLR) <;>
        cases ((ievalJ X' Y' Z' a).1.minJit (ievalJ X' Y' Z' b).1).2.isLR <;>
        rfl
    · simp only [evalW, ievalJ, List.length_append, List.length_cons,
        List.length_nil]
      simp only [i1b, i4b, i2b]
      simp only [i1a, i4a, i2a]
      by_cases h0 : n = p + (ievalJ X' Y' Z' a).2.length +
          (ievalJ X' Y' Z' b).2.length
      · subst h0
        rw [if_pos rfl, if_neg (by omega), if_neg (by omega),
          if_pos (by omega)]
        congr 1
        rw [show p + (ievalJ X' Y' Z' a).2.length +
            (ievalJ X' Y' Z' b).2.length - p =
            (ievalJ X' Y' Z' a).2.length + (ievalJ X' Y' Z' b).2.length
          from by omega]
        rw [getD_two_append_last]
      · rw [if_neg h0]
        by_cases h1 : p ≤ n ∧ n < p + (ievalJ X' Y' Z' a).2.length
        · rw [if_neg (by omega), if_pos h1, if_pos (by omega)]
          rw [getD_two_append_first _ _ _ _ (by omega)]
        · by_cases h2 : p + (ievalJ X' Y' Z' a).2.length ≤ n ∧
              n < p + (ievalJ X' Y' Z' a).2.length + (ievalJ X' Y' Z' b).2.length
          · rw [if_pos (by omega), if_neg (by omega), if_pos (by omega)]
            rw [getD_two_append_mid _ _ _ _ (by omega) (by omega)]
            congr 2
            omega
          · rw [if_neg (by omega), if_neg (by omega), if_neg (by omega)]
  | max a b iha ihb =>
    intro arr p s
    obtain ⟨i1a, i2a, i3a, i4a⟩ := iha arr p s
    obtain ⟨i1b, i2b, i3b, i4b⟩ :=
      ihb (evalW X' Y' Z' a arr p s).arr (evalW X' Y' Z' a arr p s).pos
        (evalW X' Y' Z' a arr p s).flag
    refine ⟨?_, ?_, ?_, fun n => ?_⟩
    · simp only [evalW, ievalJ]
      rw [i1b, i1a]
    · simp only [evalW, ievalJ, List.length_append, List.length_cons,
        List.length_nil]
      rw [i2b, i2a]
      omega
    · simp only [evalW, ievalJ, List.any_append, List.any_cons, List.any_nil]
      rw [i3b, i1b, i3a, i1a]
      cases s <;> cases ((ievalJ X' Y' Z' a).2.any Choice.isLR) <;>
        cases ((ievalJ X' Y' Z' b).2.any Choice.isLR) <;>
        cases ((ievalJ X' Y' Z' a).1.maxJit (ievalJ X' Y' Z' b).1).2.isLR <;>
        rfl
    · simp only [evalW, ievalJ, List.length_append, List.length_cons,
        List.length_nil]
      simp only [i1b, i4b, i2b]
      simp only [i1a, i4a, i2a]
      by_cases h0 : n = p + (ievalJ X' Y' Z' a).2.length +
          (ievalJ X' Y' Z' b).2.length
      · subst h0
        rw [if_pos rfl, if_neg (by omega), if_neg (by omega),
          if_pos (by omega)]
        congr 1
        rw [show p + (ievalJ X' Y' Z' a).2.length +
            (ievalJ X' Y' Z' b).2.length - p =
            (ievalJ X' Y' Z' a).2.length + (ievalJ X' Y' Z' b).2.length
          from by omega]
        rw [getD_two_append_last]
      · rw [if_neg h0]
        by_cases h1 : p ≤ n ∧ n < p + (ievalJ X' Y' Z' a).2.length
        · rw [if_neg (by omega), if_pos h1, if_pos (by omega)]
          rw [getD_two_append_first _ _ _ _ (by omega)]
        · by_cases h2 : p + (ievalJ X' Y' Z' a).2.length ≤ n ∧
              n < p + (ievalJ X' Y' Z' a).2.length + (ievalJ X' Y' Z' b).2.length
          · rw [if_pos (by omega), if_neg (by omega), if_pos (by omega)]
            rw [getD_two_append_mid _ _ _ _ (by omega) (by omega)]
            congr 2
            omega
          · rw [if_neg (by omega), if_neg (by omega), if_neg (by omega)]

lemma isLR_iff (c : Choice) : c.isLR = true ↔
    c = Choice.Left ∨ c = Choice.Right := by
  cases c <;> simp [Choice.isLR]

end Expr

/-- C8: during one interval evaluation (trail pointer starting at 0, flag
byte cleared, as in `eval_with`), each `min`/`max` writes its choice to the
next position of the trail in tape order by OR-merging it with the value
already stored there; positions beyond the emitted trail are untouched; and
the evaluation reports `simplify_requested = true` exactly when at least one
`Left` or `Right` choice was emitted during that call. -/
theorem C8_trail (X' Y' Z' : Interval) (e : Expr) (arr : Nat → Choice) :
    (Expr.evalW X' Y' Z' e arr 0 false).ival = (Expr.ievalJ X' Y' Z' e).1 ∧
    (Expr.evalW X' Y' Z' e arr 0 false).pos =
      (Expr.ievalJ X' Y' Z' e).2.length ∧
    (∀ k, k < (Expr.ievalJ X' Y' Z' e).2.length →
      (Expr.evalW X' Y' Z' e arr 0 false).arr k =
        (arr k).orc ((Expr.ievalJ X' Y' Z' e).2.getD k Choice.Unknown)) ∧
    (∀ k, (Expr.ievalJ X' Y' Z' e).2.length ≤ k →
      (Expr.evalW X' Y' Z' e arr 0 false).arr k = arr k) ∧
    ((Expr.evalW X' Y' Z' e arr 0 false).flag = true ↔
      Choice.Left ∈ (Expr.ievalJ X' Y' Z' e).2 ∨
      Choice.Right ∈ (Expr.ievalJ X' Y' Z' e).2) := by
  obtain ⟨h1, h2, h3, h4⟩ := Expr.evalW_spec X' Y' Z' e arr 0 false
  refine ⟨h1, by rw [h2]; omega, fun k hk => ?_, fun k hk => ?_, ?_⟩
  · rw [h4 k, if_pos (by omega), Nat.sub_zero]
  · rw [h4 k, if_neg (by omega)]
  · rw [h3, Bool.false_or, List.any_eq_true]
    constructor
    · rintro ⟨c, hc, hlr⟩
      rcases (Expr.isLR_iff c).mp hlr with rfl | rfl
      · exact Or.inl hc
      · exact Or.inr hc
    · rintro (hc | hc)
      · exact ⟨Choice.Left, hc, rfl⟩
      · exact ⟨Choice.Right, hc, rfl⟩

/-- C8, witness: for `E = min(X, 2)` over `X = [0,1]` the single emitted
choice `Left` is OR-merged into position 0 of an all-`Unknown` trail, and
the simplify flag is reported. -/
theorem C8_witness :
    (Expr.evalW ⟨F32.fin 0, F32.fin 1⟩ ⟨F32.fin 0, F32.fin 0⟩
      ⟨F32.fin 0, F32.fin 0⟩ (Expr.min Expr.X (Expr.const 2))
      (fun _ => Choice.Unknown) 0 false).arr 0 = Choice.Left ∧
    (Expr.evalW ⟨F32.fin 0, F32.fin 1⟩ ⟨F32.fin 0, F32.fin 0⟩
      ⟨F32.fin 0, F32.fin 0⟩ (Expr.min Expr.X (Expr.const 2))
      (fun _ => Choice.Unknown) 0 false).flag = true := by
  have h := C8_trail ⟨F32.fin 0, F32.fin 1⟩ ⟨F32.fin 0, F32.fin 0⟩
    ⟨F32.fin 0, F32.fin 0⟩ (Expr.min Expr.X (Expr.const 2))
    (fun _ => Choice.Unknown)
  constructor
  · rw [h.2.2.1 0 (by decide)]
    decide
  · exact h.2.2.2.2.mpr (by decide)

/-!  ## Claim C2: simplification preserves point values on the region.  -/

namespace Expr

lemma simplifyGo_min_left {a b : Expr} {tr rest : List Choice}
    (h : (simplifyGo b (simplifyGo a tr).2).2 = Choice.Left :: rest) :
    simplifyGo (Expr.min a b) tr = ((simplifyGo a tr).1, rest) := by
  simp only [simplifyGo]
  rw [h]

lemma simplifyGo_min_right {a b : Expr} {tr rest : List Choice}
    (h : (simplifyGo b (simplifyGo a tr).2).2 = Choice.Right :: rest) :
    simplifyGo (Expr.min a b) tr =
      ((simplifyGo b (simplifyGo a tr).2).1, rest) := by
  simp only [simplifyGo]
  rw [h]

lemma simplifyGo_min_both {a b : Expr} {tr rest : List Choice}
    (h : (simplifyGo b (simplifyGo a tr).2).2 = Choice.Both :: rest) :
    simplifyGo (Expr.min a b) tr =
      ((simplifyGo a tr).1.min (simplifyGo b (simplifyGo a tr).2).1, rest) := by
  simp only [simplifyGo]
  rw [h]

lemma simplifyGo_max_left {a b : Expr} {tr rest : List Choice}
    (h : (simplifyGo b (simplifyGo a tr).2).2 = Choice.Left :: rest) :
    simplifyGo (Expr.max a b) tr = ((simplifyGo a tr).1, rest) := by
  simp only [simplifyGo]
  rw [h]

lemma simplifyGo_max_right {a b : Expr} {tr rest : List Choice}
    (h : (simplifyGo b (simplifyGo a tr).2).2 = Choice.Right :: rest) :
    simplifyGo (Expr.max a b) tr =
      ((simplifyGo b (simplifyGo a tr).2).1, rest) := by
  simp only [simplifyGo]
  rw [h]

lemma simplifyGo_max_both {a b : Expr} {tr rest : List Choice}
    (h : (simplifyGo b (simplifyGo a tr).2).2 = Choice.Both :: rest) :
    simplifyGo (Expr.max a b) tr =
      ((simplifyGo a tr).1.max (simplifyGo b (simplifyGo a tr).2).1, rest) := by
  simp only [simplifyGo]
  rw [h]

/-- Core correctness of the simplifier: consuming the trail emitted by an
interval evaluation (followed by any suffix), simplification consumes
exactly that trail, preserves the (finite) point value everywhere in the
evaluated box, and does not increase the choice count. -/
lemma simplify_ok {X' Y' Z' : Interval} (hX : X'.fv = true)
    (hY : Y'.fv = true) (hZ : Z'.fv = true) {x y z : ℚ}
    (hx : X'.containsF (F32.fin x) = true)
    (hy : Y'.containsF (F32.fin y) = true)
    (hz : Z'.containsF (F32.fin z) = true) :
    ∀ e : Expr, ievalWF X' Y' Z' e = true →
      ∀ (rest : List Choice) (v : ℚ),
        peval (F32.fin x) (F32.fin y) (F32.fin z) e = F32.fin v →
        (simplifyGo e ((ieval X' Y' Z' e).2 ++ rest)).2 = rest ∧
        peval (F32.fin x) (F32.fin y) (F32.fin z)
          (simplifyGo e ((ieval X' Y' Z' e).2 ++ rest)).1 = F32.fin v ∧
        choiceCount (simplifyGo e ((ieval X' Y' Z' e).2 ++ rest)).1 ≤
          choiceCount e := by
  intro e
  induction e with
  | X =>
    intro _ rest v hv
    exact ⟨rfl, hv, le_refl _⟩
  | Y =>
    intro _ rest v hv
    exact ⟨rfl, hv, le_refl _⟩
  | Z =>
    intro _ rest v hv
    exact ⟨rfl, hv, le_refl _⟩
  | const q =>
    intro _ rest v hv
    exact ⟨rfl, hv, le_refl _⟩
  | neg e ih =>
    intro hwf rest v hv
    simp only [ievalWF, Bool.and_eq_true] at hwf
    simp only [peval] at hv
    rcases F32.neg_eq_fin hv with ⟨w, hw, hvw⟩
    obtain ⟨g1, g2, g3⟩ := ih hwf.1 rest w hw
    simp only [ieval, simplifyGo]
    exact ⟨g1, by simp only [peval, g2, F32.neg_fin, hvw],
      by simpa [choiceCount] using g3⟩
  | abs e ih =>
    intro hwf rest v hv
    simp only [ievalWF, Bool.and_eq_true] at hwf
    simp only [peval] at hv
    rcases F32.abs_eq_fin hv with ⟨w, hw, hvw⟩
    obtain ⟨g1, g2, g3⟩ := ih hwf.1 rest w hw
    simp only [ieval, simplifyGo]
    exact ⟨g1, by simp only [peval, g2, F32.abs_fin, hvw],
      by simpa [choiceCount] using g3⟩
  | sqrt e ih =>
    intro hwf rest v hv
    simp only [ievalWF, Bool.and_eq_true] at hwf
    simp only [peval] at hv
    rcases F32.sqrt_eq_fin hv with ⟨w, hw, hw0, hvw⟩
    obtain ⟨g1, g2, g3⟩ := ih hwf.1 rest w hw
    simp only [ieval, simplifyGo]
    refine ⟨g1, ?_, by simpa [choiceCount] using g3⟩
    simp only [peval, g2]
    rw [F32.sqrt_fin_nonneg w hw0, hvw]
  | add a b iha ihb =>
    intro hwf rest v hv
    simp only [ievalWF, Bool.and_eq_true] at hwf
    obtain ⟨⟨hwfa, hwfb⟩, _⟩ := hwf
    simp only [peval] at hv
    rcases F32.add_eq_fin hv with ⟨p, q, hp, hq, hv2⟩
    obtain ⟨g1a, g2a, g3a⟩ := iha hwfa ((ieval X' Y' Z' b).2 ++ rest) p hp
    obtain ⟨g1b, g2b, g3b⟩ := ihb hwfb rest q hq
    simp only [ieval, simplifyGo, List.append_assoc]
    rw [g1a, g1b]
    refine ⟨rfl, ?_, ?_⟩
    · simp only [peval, g2a, g2b, F32.add_fin_fin, hv2]
    · simp only [choiceCount]
      omega
  | sub a b iha ihb =>
    intro hwf rest v hv
    simp only [ievalWF, Bool.and_eq_true] at hwf
    obtain ⟨⟨hwfa, hwfb⟩, _⟩ := hwf
    simp only [peval] at hv
    rcases F32.sub_eq_fin hv with ⟨p, q, hp, hq, hv2⟩
    obtain ⟨g1a, g2a, g3a⟩ := iha hwfa ((ieval X' Y' Z' b).2 ++ rest) p hp
    obtain ⟨g1b, g2b, g3b⟩ := ihb hwfb rest q hq
    simp only [ieval, simplifyGo, List.append_assoc]
    rw [g1a, g1b]
    refine ⟨rfl, ?_, ?_⟩
    · simp only [peval, g2a, g2b, F32.sub_fin_fin, hv2]
    · simp only [choiceCount]
      omega
  | mul a b iha ihb =>
    intro hwf rest v hv
    simp only [ievalWF, Bool.and_eq_true] at hwf
    obtain ⟨⟨hwfa, hwfb⟩, _⟩ := hwf
    simp only [peval] at hv
    rcases F32.mul_eq_fin hv with ⟨p, q, hp, hq, hv2⟩
    obtain ⟨g1a, g2a, g3a⟩ := iha hwfa ((ieval X' Y' Z' b).2 ++ rest) p hp
    obtain ⟨g1b, g2b, g3b⟩ := ihb hwfb rest q hq
    simp only [ieval, simplifyGo, List.append_assoc]
    rw [g1a, g1b]
    refine ⟨rfl, ?_, ?_⟩
    · simp only [peval, g2a, g2b, F32.mul_fin_fin, hv2]
    · simp only [choiceCount]
      omega
  | min a b iha ihb =>
    intro hwf rest v hv
    simp only [ievalWF, Bool.and_eq_true] at hwf
    obtain ⟨⟨hwfa, hwfb⟩, _⟩ := hwf
    simp only [peval] at hv
    rcases peval_fin_or_nan x y z a with hna | ⟨p, hp⟩
    · rw [hna] at hv
      simp at hv
    rcases peval_fin_or_nan x y z b with hnb | ⟨q, hq⟩
    · rw [hnb] at hv
      simp at hv
    rw [hp, hq] at hv
    simp only [F32.pmin_fin_fin, F32.fin.injEq] at hv
    obtain ⟨hfva, hmema⟩ := encl hX hY hZ hx hy hz a hwfa
    obtain ⟨hfvb, hmemb⟩ := encl hX hY hZ hx hy hz b hwfb
    rcases Interval.fv_iff.mp hfva with ⟨a1, b1, hab1, hle1⟩
    rcases Interval.fv_iff.mp hfvb with ⟨a2, b2, hab2, hle2⟩
    obtain ⟨hm1, hm2⟩ := Interval.containsF_fin.mp (hab1 ▸ hmema p hp)
    obtain ⟨hm3, hm4⟩ := Interval.containsF_fin.mp (hab2 ▸ hmemb q hq)
    have hTR : (ieval X' Y' Z' (Expr.min a b)).2 ++ rest =
        (ieval X' Y' Z' a).2 ++ ((ieval X' Y' Z' b).2 ++
          (((ieval X' Y' Z' a).1.min_choice (ieval X' Y' Z' b).1).2 :: rest)) := by
      simp [ieval, List.append_assoc]
    obtain ⟨g1a, g2a, g3a⟩ := iha hwfa ((ieval X' Y' Z' b).2 ++
      (((ieval X' Y' Z' a).1.min_choice (ieval X' Y' Z' b).1).2 :: rest)) p hp
    obtain ⟨g1b, g2b, g3b⟩ := ihb hwfb
      (((ieval X' Y' Z' a).1.min_choice (ieval X' Y' Z' b).1).2 :: rest) q hq
    have hrest2 : (simplifyGo b (simplifyGo a ((ieval X' Y' Z' (Expr.min a b)).2
        ++ rest)).2).2 =
        ((ieval X' Y' Z' a).1.min_choice (ieval X' Y' Z' b).1).2 :: rest := by
      rw [hTR, g1a, g1b]
    by_cases hL : F32.lt (ieval X' Y' Z' a).1.upper
        (ieval X' Y' Z' b).1.lower = true
    · have hcL : ((ieval X' Y' Z' a).1.min_choice (ieval X' Y' Z' b).1).2 =
          Choice.Left := by
        simp only [Interval.min_choice]
        rw [if_pos hL]
      rw [hcL] at hrest2
      rw [simplifyGo_min_left hrest2]
      have hpq : p < q := by
        rw [hab1, hab2] at hL
        simp only [Interval.lower_mk, Interval.upper_mk, F32.lt_fin_fin,
          decide_eq_true_eq] at hL
        linarith
      refine ⟨rfl, ?_, ?_⟩
      · rw [hTR, g2a, ← hv, min_eq_left (le_of_lt hpq)]
      · rw [hTR]
        simp only [choiceCount]
        omega
    · by_cases hR : F32.lt (ieval X' Y' Z' b).1.upper
          (ieval X' Y' Z' a).1.lower = true
      · have hcR : ((ieval X' Y' Z' a).1.min_choice (ieval X' Y' Z' b).1).2 =
            Choice.Right := by
          simp only [Interval.min_choice]
          rw [if_neg (by simp [hL]), if_pos hR]
        rw [hcR] at hrest2
        rw [simplifyGo_min_right hrest2]
        have hpq : q < p := by
          rw [hab1, hab2] at hR
          simp only [Interval.lower_mk, Interval.upper_mk, F32.lt_fin_fin,
            decide_eq_true_eq] at hR
          linarith
        refine ⟨rfl, ?_, ?_⟩
        · rw [hTR, g1a, g2b, ← hv, min_eq_right (le_of_lt hpq)]
        · rw [hTR, g1a]
          simp only [choiceCount]
          omega
      · have hcB : ((ieval X' Y' Z' a).1.min_choice (ieval X' Y' Z' b).1).2 =
            Choice.Both := by
          simp only [Interval.min_choice]
          rw [if_neg (by simp [hL]), if_neg (by simp [hR])]
        rw [hcB] at hrest2
        rw [simplifyGo_min_both hrest2]
        refine ⟨rfl, ?_, ?_⟩
        · simp only [peval]
          rw [hTR, g2a, g1a, g2b]
          simp only [F32.pmin_fin_fin, hv]
        · rw [hTR, g1a]
          simp only [choiceCount]
          omega
  | max a b iha ihb =>
    intro hwf rest v hv
    simp only [ievalWF, Bool.and_eq_true] at hwf
    obtain ⟨⟨hwfa, hwfb⟩, _⟩ := hwf
    simp only [peval] at hv
    rcases peval_fin_or_nan x y z a with hna | ⟨p, hp⟩
    · rw [hna] at hv
      simp at hv
    rcases peval_fin_or_nan x y z b with hnb | ⟨q, hq⟩
    · rw [hnb] at hv
      simp at hv
    rw [hp, hq] at hv
    simp only [F32.pmax_fin_fin, F32.fin.injEq] at hv
    obtain ⟨hfva, hmema⟩ := encl hX hY hZ hx hy hz a hwfa
    obtain ⟨hfvb, hmemb⟩ := encl hX hY hZ hx hy hz b hwfb
    rcases Interval.fv_iff.mp hfva with ⟨a1, b1, hab1, hle1⟩
    rcases Interval.fv_iff.mp hfvb with ⟨a2, b2, hab2, hle2⟩
    obtain ⟨hm1, hm2⟩ := Interval.containsF_fin.mp (hab1 ▸ hmema p hp)
    obtain ⟨hm3, hm4⟩ := Interval.containsF_fin.mp (hab2 ▸ hmemb q hq)
    have hTR : (ieval X' Y' Z' (Expr.max a b)).2 ++ rest =
        (ieval X' Y' Z' a).2 ++ ((ieval X' Y' Z' b).2 ++
          (((ieval X' Y' Z' a).1.max_choice (ieval X' Y' Z' b).1).2 :: rest)) := by
      simp [ieval, List.append_assoc]
    obtain ⟨g1a, g2a, g3a⟩ := iha hwfa ((ieval X' Y' Z' b).2 ++
      (((ieval X' Y' Z' a).1.max_choice (ieval X' Y' Z' b).1).2 :: rest)) p hp
    obtain ⟨g1b, g2b, g3b⟩ := ihb hwfb
      (((ieval X' Y' Z' a).1.max_choice (ieval X' Y' Z' b).1).2 :: rest) q hq
    have hrest2 : (simplifyGo b (simplifyGo a ((ieval X' Y' Z' (Expr.max a b)).2
        ++ rest)).2).2 =
        ((ieval X' Y' Z' a).1.max_choice (ieval X' Y' Z' b).1).2 :: rest := by
      rw [hTR, g1a, g1b]
    by_cases hL : F32.lt (ieval X' Y' Z' b).1.upper
        (ieval X' Y' Z' a).1.lower = true
    · have hcL : ((ieval X' Y' Z' a).1.max_choice (ieval X' Y' Z' b).1).2 =
          Choice.Left := by
        simp only [Interval.max_choice]
        rw [if_pos hL]
      rw [hcL] at hrest2
      rw [simplifyGo_max_left hrest2]
      have hpq : q < p := by
        rw [hab1, hab2] at hL
        simp only [Interval.lower_mk, Interval.upper_mk, F32.lt_fin_fin,
          decide_eq_true_eq] at hL
        linarith
      refine ⟨rfl, ?_, ?_⟩
      · rw [hTR, g2a, ← hv, max_eq_left (le_of_lt hpq)]
      · rw [hTR]
        simp only [choiceCount]
        omega
    · by_cases hR : F32.lt (ieval X' Y' Z' a).1.upper
          (ieval X' Y' Z' b).1.lower = true
      · have hcR : ((ieval X' Y' Z' a).1.max_choice (ieval X' Y' Z' b).1).2 =
            Choice.Right := by
          simp only [Interval.max_choice]
          rw [if_neg (by simp [hL]), if_pos hR]
        rw [hcR] at hrest2
        rw [simplifyGo_max_right hrest2]
        have hpq : p < q := by
          rw [hab1, hab2] at hR
          simp only [Interval.lower_mk, Interval.upper_mk, F32.lt_fin_fin,
            decide_eq_true_eq] at hR
          linarith
        refine ⟨rfl, ?_, ?_⟩
        · rw [hTR, g1a, g2b, ← hv, max_eq_right (le_of_lt hpq)]
        · rw [hTR, g1a]
          simp only [choiceCount]
          omega
      · have hcB : ((ieval X' Y' Z' a).1.max_choice (ieval X' Y' Z' b).1).2 =
            Choice.Both := by
          simp only [Interval.max_choice]
          rw [if_neg (by simp [hL]), if_neg (by simp [hR])]
        rw [hcB] at hrest2
        rw [simplifyGo_max_both hrest2]
        refine ⟨rfl, ?_, ?_⟩
        · simp only [peval]
          rw [hTR, g2a, g1a, g2b]
          simp only [F32.pmax_fin_fin, hv]
        · rw [hTR, g1a]
          simp only [choiceCount]
          omega

end Expr

/-- C2, counterexample: the claim as stated is false.  For
`E = min(max(sqrt X, -5), min(sqrt Y, 5) - 1)` over `X = Y = [-1, 0]`,
`Z = [0,0]`, interval evaluation produces the trail `[Both, Both, Left]`
(the left branch's interval is `[-5,-5]`, the right branch's `[4,4]`,
because `sqrt([-1,0]) = (NaN,NaN)` is absorbed by the inner max/min), and
the simplified tape is `max(sqrt X, -5)`.  At the in-region point
`(0, 0, 0)` the original evaluates to `-1` but the simplified tape to `0`. -/
theorem C2_counterexample :
    (Expr.ieval ⟨F32.fin (-1), F32.fin 0⟩ ⟨F32.fin (-1), F32.fin 0⟩
      ⟨F32.fin 0, F32.fin 0⟩
      (Expr.min (Expr.max (Expr.sqrt Expr.X) (Expr.const (-5)))
        (Expr.sub (Expr.min (Expr.sqrt Expr.Y) (Expr.const 5))
          (Expr.const 1)))).2 =
      [Choice.Both, Choice.Both, Choice.Left] ∧
    Expr.simplifyTape
      (Expr.min (Expr.max (Expr.sqrt Expr.X) (Expr.const (-5)))
        (Expr.sub (Expr.min (Expr.sqrt Expr.Y) (Expr.const 5))
          (Expr.const 1)))
      [Choice.Both, Choice.Both, Choice.Left] =
      Expr.max (Expr.sqrt Expr.X) (Expr.const (-5)) ∧
    Expr.peval (F32.fin 0) (F32.fin 0) (F32.fin 0)
      (Expr.min (Expr.max (Expr.sqrt Expr.X) (Expr.const (-5)))
        (Expr.sub (Expr.min (Expr.sqrt Expr.Y) (Expr.const 5))
          (Expr.const 1))) = F32.fin (-1) ∧
    Expr.peval (F32.fin 0) (F32.fin 0) (F32.fin 0)
      (Expr.max (Expr.sqrt Expr.X) (Expr.const (-5))) = F32.fin 0 ∧
    (F32.fin (-1) : F32) ≠ F32.fin 0 := by
  decide

/-- C2, amended: over finite valid input intervals, when no intermediate
interval of the evaluation has a NaN bound, the tape obtained by
simplifying against the emitted choice trail computes, at every point of
the region where the point value is not NaN, the same value as the original
expression, and its choice count is at most the original's. -/
theorem C2_simplify_preserves (e : Expr) (X' Y' Z' : Interval)
    (hX : X'.fv = true) (hY : Y'.fv = true) (hZ : Z'.fv = true)
    (x y z : ℚ)
    (hx : X'.containsF (F32.fin x) = true)
    (hy : Y'.containsF (F32.fin y) = true)
    (hz : Z'.containsF (F32.fin z) = true)
    (hwf : Expr.ievalWF X' Y' Z' e = true) (v : ℚ)
    (hv : Expr.peval (F32.fin x) (F32.fin y) (F32.fin z) e = F32.fin v) :
    Expr.peval (F32.fin x) (F32.fin y) (F32.fin z)
      (Expr.simplifyTape e (Expr.ieval X' Y' Z' e).2) = F32.fin v ∧
    Expr.choiceCount (Expr.simplifyTape e (Expr.ieval X' Y' Z' e).2) ≤
      Expr.choiceCount e := by
  have h := Expr.simplify_ok hX hY hZ hx hy hz e hwf [] v hv
  rw [List.append_nil] at h
  exact ⟨h.2.1, h.2.2⟩

/-- C2, witness: for `E = min(X, 2)` over `X = [0,1]` the trail is `[Left]`,
the simplified tape is `X`, and at the point `x = 0` both evaluate to 0. -/
theorem C2_witness :
    Expr.simplifyTape (Expr.min Expr.X (Expr.const 2))
      (Expr.ieval ⟨F32.fin 0, F32.fin 1⟩ ⟨F32.fin 0, F32.fin 0⟩
        ⟨F32.fin 0, F32.fin 0⟩ (Expr.min Expr.X (Expr.const 2))).2 =
      Expr.X ∧
    Expr.peval (F32.fin 0) (F32.fin 0) (F32.fin 0)
      (Expr.simplifyTape (Expr.min Expr.X (Expr.const 2))
        (Expr.ieval ⟨F32.fin 0, F32.fin 1⟩ ⟨F32.fin 0, F32.fin 0⟩
          ⟨F32.fin 0, F32.fin 0⟩ (Expr.min Expr.X (Expr.const 2))).2) =
      F32.fin 0 ∧
    Expr.choiceCount (Expr.simplifyTape (Expr.min Expr.X (Expr.const 2))
        (Expr.ieval ⟨F32.fin 0, F32.fin 1⟩ ⟨F32.fin 0, F32.fin 0⟩
          ⟨F32.fin 0, F32.fin 0⟩ (Expr.min Expr.X (Expr.const 2))).2) ≤
      Expr.choiceCount (Expr.min Expr.X (Expr.const 2)) := by
  have h := C2_simplify_preserves (Expr.min Expr.X (Expr.const 2))
    ⟨F32.fin 0, F32.fin 1⟩ ⟨F32.fin 0, F32.fin 0⟩ ⟨F32.fin 0, F32.fin 0⟩
    (by decide) (by decide) (by decide) 0 0 0
    (by decide) (by decide) (by decide) (by decide) 0 (by decide)
  exact ⟨by decide, h.1, h.2⟩

/-!  ## Claim C9: subdivision — containment lemmas.  -/

namespace Interval

lemma subsetI_fin {a b a' b' : ℚ} :
    subsetI ⟨F32.fin a', F32.fin b'⟩ ⟨F32.fin a, F32.fin b⟩ = true ↔
      a ≤ a' ∧ b' ≤ b := by
  simp [subsetI]

lemma subsetI_refl_fv {i : Interval} (h : i.fv = true) :
    i.subsetI i = true := by
  rcases fv_iff.mp h with ⟨a, b, rfl, hab⟩
  exact subsetI_fin.mpr ⟨le_refl a, le_refl b⟩

lemma hull_fin (a b c d : ℚ) :
    hull ⟨F32.fin a, F32.fin b⟩ ⟨F32.fin c, F32.fin d⟩ =
      ⟨F32.fin (min a c), F32.fin (max b d)⟩ := by
  simp [hull]

/-- The hull of two finite intervals contained in `j` is contained in `j`. -/
lemma hull_subsetI {i1 i2 j : Interval} (h1f : i1.fv = true)
    (h2f : i2.fv = true) (hjf : j.fv = true)
    (h1 : i1.subsetI j = true) (h2 : i2.subsetI j = true) :
    (i1.hull i2).subsetI j = true := by
  rcases fv_iff.mp h1f with ⟨a1, b1, rfl, _⟩
  rcases fv_iff.mp h2f with ⟨a2, b2, rfl, _⟩
  rcases fv_iff.mp hjf with ⟨c, d, rfl, _⟩
  obtain ⟨k1, k2⟩ := subsetI_fin.mp h1
  obtain ⟨k3, k4⟩ := subsetI_fin.mp h2
  rw [hull_fin]
  exact subsetI_fin.mpr ⟨le_min k1 k3, max_le k2 k4⟩

/-- The hull is monotone with respect to containment of finite intervals. -/
lemma hull_mono {i1 i2 j1 j2 : Interval} (h1f : i1.fv = true)
    (h2f : i2.fv = true) (hj1f : j1.fv = true) (hj2f : j2.fv = true)
    (h1 : i1.subsetI j1 = true) (h2 : i2.subsetI j2 = true) :
    (i1.hull i2).subsetI (j1.hull j2) = true := by
  rcases fv_iff.mp h1f with ⟨a1, b1, rfl, _⟩
  rcases fv_iff.mp h2f with ⟨a2, b2, rfl, _⟩
  rcases fv_iff.mp hj1f with ⟨c1, d1, rfl, _⟩
  rcases fv_iff.mp hj2f with ⟨c2, d2, rfl, _⟩
  obtain ⟨k1, k2⟩ := subsetI_fin.mp h1
  obtain ⟨k3, k4⟩ := subsetI_fin.mp h2
  rw [hull_fin, hull_fin]
  exact subsetI_fin.mpr ⟨min_le_min k1 k3, max_le_max k2 k4⟩

/-- The hull of two finite intervals is finite. -/
lemma hull_fv {i1 i2 : Interval} (h1f : i1.fv = true) (h2f : i2.fv = true) :
    (i1.hull i2).fv = true := by
  rcases fv_iff.mp h1f with ⟨a1, b1, rfl, hle1⟩
  rcases fv_iff.mp h2f with ⟨a2, b2, rfl, hle2⟩
  rw [hull_fin]
  exact fv_iff.mpr ⟨_, _, rfl, le_trans (min_le_left _ _)
    (le_trans hle1 (le_max_left _ _))⟩

/-- Isotonicity of the interval absolute value on finite intervals. -/
lemma abs_iso {a1 b1 a2 b2 : ℚ} (h1 : a1 ≤ b1) (h2 : a2 ≤ b2)
    (hs1 : a1 ≤ a2) (hs2 : b2 ≤ b1) :
    (Interval.abs ⟨F32.fin a2, F32.fin b2⟩).subsetI
      (Interval.abs ⟨F32.fin a1, F32.fin b1⟩) = true := by
  rcases le_or_lt 0 a1 with ha1 | ha1
  · rw [abs_fin_nonneg ha1, abs_fin_nonneg (by linarith)]
    exact subsetI_fin.mpr ⟨hs1, hs2⟩
  · rcases le_or_lt b1 0 with hb1 | hb1
    · rcases lt_or_le a2 0 with ha2 | ha2
      · rw [abs_fin_nonpos ha1 hb1, abs_fin_nonpos ha2 (by linarith)]
        exact subsetI_fin.mpr ⟨by linarith, by linarith⟩
      · have hz1 : a2 = 0 := le_antisymm (by linarith) ha2
        have hz2 : b2 = 0 := by linarith
        rw [abs_fin_nonneg ha2, abs_fin_nonpos ha1 hb1]
        have hb1z : b1 = 0 := by linarith
        exact subsetI_fin.mpr ⟨by rw [hb1z]; linarith, by linarith⟩
    · rcases lt_or_le a2 0 with ha2 | ha2
      · rcases le_or_lt b2 0 with hb2 | hb2
        · rw [abs_fin_strad ha1 hb1, abs_fin_nonpos ha2 hb2]
          refine subsetI_fin.mpr ⟨by linarith, ?_⟩
          exact le_trans (by linarith [le_max_right b1 (-a1)])
            (le_refl (max b1 (-a1)))
        · rw [abs_fin_strad ha1 hb1, abs_fin_strad ha2 hb2]
          exact subsetI_fin.mpr ⟨le_refl 0,
            max_le_max hs2 (by linarith)⟩
      · rw [abs_fin_strad ha1 hb1, abs_fin_nonneg ha2]
        refine subsetI_fin.mpr ⟨ha2, ?_⟩
        exact le_trans hs2 (le_max_left _ _)

end Interval

namespace Expr

/-- Over finite valid inputs, a well-formed interval evaluation yields a
finite valid interval. -/
lemma ieval_fv {X' Y' Z' : Interval} (hX : X'.fv = true) (hY : Y'.fv = true)
    (hZ : Z'.fv = true) (e : Expr) (hwf : ievalWF X' Y' Z' e = true) :
    (ieval X' Y' Z' e).1.fv = true := by
  rcases Interval.fv_iff.mp hX with ⟨a, b, habX, hleX⟩
  rcases Interval.fv_iff.mp hY with ⟨c, d, habY, hleY⟩
  rcases Interval.fv_iff.mp hZ with ⟨u, w, habZ, hleZ⟩
  refine (encl hX hY hZ (x := a) (y := c) (z := u) ?_ ?_ ?_ e hwf).1
  · rw [habX]
    exact Interval.containsF_fin.mpr ⟨le_refl a, hleX⟩
  · rw [habY]
    exact Interval.containsF_fin.mpr ⟨le_refl c, hleY⟩
  · rw [habZ]
    exact Interval.containsF_fin.mpr ⟨le_refl u, hleZ⟩

/-- Inclusion isotonicity: over finite valid inputs, if each input interval
shrinks and both evaluations are NaN-free, the result interval shrinks. -/
lemma iso {X1 Y1 Z1 X2 Y2 Z2 : Interval}
    (hX1 : X1.fv = true) (hY1 : Y1.fv = true) (hZ1 : Z1.fv = true)
    (hX2 : X2.fv = true) (hY2 : Y2.fv = true) (hZ2 : Z2.fv = true)
    (hsx : X2.subsetI X1 = true) (hsy : Y2.subsetI Y1 = true)
    (hsz : Z2.subsetI Z1 = true) :
    ∀ e : Expr, ievalWF X1 Y1 Z1 e = true → ievalWF X2 Y2 Z2 e = true →
      (ieval X2 Y2 Z2 e).1.subsetI (ieval X1 Y1 Z1 e).1 = true := by
  intro e
  induction e with
  | X => exact fun _ _ => hsx
  | Y => exact fun _ _ => hsy
  | Z => exact fun _ _ => hsz
  | const q =>
    intro _ _
    exact Interval.subsetI_fin.mpr ⟨le_refl q, le_refl q⟩
  | neg e ih =>
    intro hwf1 hwf2
    simp only [ievalWF, Bool.and_eq_true] at hwf1 hwf2
    have hsub := ih hwf1.1 hwf2.1
    have hf1 := ieval_fv hX1 hY1 hZ1 e hwf1.1
    have hf2 := ieval_fv hX2 hY2 hZ2 e hwf2.1
    rcases Interval.fv_iff.mp hf1 with ⟨a1, b1, hab1, hle1⟩
    rcases Interval.fv_iff.mp hf2 with ⟨a2, b2, hab2, hle2⟩
    rw [hab1, hab2] at hsub
    obtain ⟨k1, k2⟩ := Interval.subsetI_fin.mp hsub
    simp only [ieval, hab1, hab2, Interval.neg_finI]
    exact Interval.subsetI_fin.mpr ⟨by linarith, by linarith⟩
  | abs e ih =>
    intro hwf1 hwf2
    simp only [ievalWF, Bool.and_eq_true] at hwf1 hwf2
    have hsub := ih hwf1.1 hwf2.1
    have hf1 := ieval_fv hX1 hY1 hZ1 e hwf1.1
    have hf2 := ieval_fv hX2 hY2 hZ2 e hwf2.1
    rcases Interval.fv_iff.mp hf1 with ⟨a1, b1, hab1, hle1⟩
    rcases Interval.fv_iff.mp hf2 with ⟨a2, b2, hab2, hle2⟩
    rw [hab1, hab2] at hsub
    obtain ⟨k1, k2⟩ := Interval.subsetI_fin.mp hsub
    simp only [ieval, hab1, hab2]
    exact Interval.abs_iso hle1 hle2 k1 k2
  | sqrt e ih =>
    intro hwf1 hwf2
    simp only [ievalWF, Bool.and_eq_true] at hwf1 hwf2
    obtain ⟨hwfa1, hnn1⟩ := hwf1
    obtain ⟨hwfa2, hnn2⟩ := hwf2
    have hsub := ih hwfa1 hwfa2
    have hf1 := ieval_fv hX1 hY1 hZ1 e hwfa1
    have hf2 := ieval_fv hX2 hY2 hZ2 e hwfa2
    rcases Interval.fv_iff.mp hf1 with ⟨a1, b1, hab1, hle1⟩
    rcases Interval.fv_iff.mp hf2 with ⟨a2, b2, hab2, hle2⟩
    rw [hab1, hab2] at hsub
    obtain ⟨k1, k2⟩ := Interval.subsetI_fin.mp hsub
    simp only [ieval, hab1, hab2]
    rcases le_or_lt 0 a1 with ha1 | ha1
    · rw [Interval.sqrt_finI_nonneg ha1 hle1,
        Interval.sqrt_finI_nonneg (by linarith) hle2]
      exact Interval.subsetI_fin.mpr
        ⟨F32.fsqrtQ_mono k1, F32.fsqrtQ_mono k2⟩
    · rcases le_or_lt b1 0 with hb1 | hb1
      · exfalso
        rw [show (ieval X1 Y1 Z1 (Expr.sqrt e)).1 =
            (ieval X1 Y1 Z1 e).1.sqrt from rfl, hab1,
          Interval.sqrt_fin_nonpos ha1 hb1] at hnn1
        simp [Interval.noNaN] at hnn1
      · rw [Interval.sqrt_fin_strad ha1 hb1]
        rcases le_or_lt 0 a2 with ha2 | ha2
        · rw [Interval.sqrt_finI_nonneg ha2 hle2]
          exact Interval.subsetI_fin.mpr
            ⟨F32.fsqrtQ_nonneg a2, F32.fsqrtQ_mono k2⟩
        · rcases le_or_lt b2 0 with hb2 | hb2
          · exfalso
            rw [show (ieval X2 Y2 Z2 (Expr.sqrt e)).1 =
                (ieval X2 Y2 Z2 e).1.sqrt from rfl, hab2,
              Interval.sqrt_fin_nonpos ha2 hb2] at hnn2
            simp [Interval.noNaN] at hnn2
          · rw [Interval.sqrt_fin_strad ha2 hb2]
            exact Interval.subsetI_fin.mpr
              ⟨le_refl 0, F32.fsqrtQ_mono k2⟩
  | add a b iha ihb =>
    intro hwf1 hwf2
    simp only [ievalWF, Bool.and_eq_true] at hwf1 hwf2
    obtain ⟨⟨hwa1, hwb1⟩, _⟩ := hwf1
    obtain ⟨⟨hwa2, hwb2⟩, _⟩ := hwf2
    have hsa := iha hwa1 hwa2
    have hsb := ihb hwb1 hwb2
    rcases Interval.fv_iff.mp (ieval_fv hX1 hY1 hZ1 a hwa1) with
      ⟨a1, b1, hA1, hl1⟩
    rcases Interval.fv_iff.mp (ieval_fv hX2 hY2 hZ2 a hwa2) with
      ⟨a2, b2, hA2, hl2⟩
    rcases Interval.fv_iff.mp (ieval_fv hX1 hY1 hZ1 b hwb1) with
      ⟨c1, d1, hB1, hm1⟩
    rcases Interval.fv_iff.mp (ieval_fv hX2 hY2 hZ2 b hwb2) with
      ⟨c2, d2, hB2, hm2⟩
    rw [hA1, hA2] at hsa
    rw [hB1, hB2] at hsb
    obtain ⟨k1, k2⟩ := Interval.subsetI_fin.mp hsa
    obtain ⟨k3, k4⟩ := Interval.subsetI_fin.mp hsb
    simp only [ieval, hA1, hA2, hB1, hB2, Interval.add_fin]
    exact Interval.subsetI_fin.mpr ⟨by linarith, by linarith⟩
  | sub a b iha ihb =>
    intro hwf1 hwf2
    simp only [ievalWF, Bool.and_eq_true] at hwf1 hwf2
    obtain ⟨⟨hwa1, hwb1⟩, _⟩ := hwf1
    obtain ⟨⟨hwa2, hwb2⟩, _⟩ := hwf2
    have hsa := iha hwa1 hwa2
    have hsb := ihb hwb1 hwb2
    rcases Interval.fv_iff.mp (ieval_fv hX1 hY1 hZ1 a hwa1) with
      ⟨a1, b1, hA1, hl1⟩
    rcases Interval.fv_iff.mp (ieval_fv hX2 hY2 hZ2 a hwa2) with
      ⟨a2, b2, hA2, hl2⟩
    rcases Interval.fv_iff.mp (ieval_fv hX1 hY1 hZ1 b hwb1) with
      ⟨c1, d1, hB1, hm1⟩
    rcases Interval.fv_iff.mp (ieval_fv hX2 hY2 hZ2 b hwb2) with
      ⟨c2, d2, hB2, hm2⟩
    rw [hA1, hA2] at hsa
    rw [hB1, hB2] at hsb
    obtain ⟨k1, k2⟩ := Interval.subsetI_fin.mp hsa
    obtain ⟨k3, k4⟩ := Interval.subsetI_fin.mp hsb
    simp only [ieval, hA1, hA2, hB1, hB2, Interval.sub_fin]
    exact Interval.subsetI_fin.mpr ⟨by linarith, by linarith⟩
  | mul a b iha ihb =>
    intro hwf1 hwf2
    simp only [ievalWF, Bool.and_eq_true] at hwf1 hwf2
    obtain ⟨⟨hwa1, hwb1⟩, _⟩ := hwf1
    obtain ⟨⟨hwa2, hwb2⟩, _⟩ := hwf2
    have hsa := iha hwa1 hwa2
    have hsb := ihb hwb1 hwb2
    rcases Interval.fv_iff.mp (ieval_fv hX1 hY1 hZ1 a hwa1) with
      ⟨a1, b1, hA1, hl1⟩
    rcases Interval.fv_iff.mp (ieval_fv hX2 hY2 hZ2 a hwa2) with
      ⟨a2, b2, hA2, hl2⟩
    rcases Interval.fv_iff.mp (ieval_fv hX1 hY1 hZ1 b hwb1) with
      ⟨c1, d1, hB1, hm1⟩
    rcases Interval.fv_iff.mp (ieval_fv hX2 hY2 hZ2 b hwb2) with
      ⟨c2, d2, hB2, hm2⟩
    rw [hA1, hA2] at hsa
    rw [hB1, hB2] at hsb
    obtain ⟨k1, k2⟩ := Interval.subsetI_fin.mp hsa
    obtain ⟨k3, k4⟩ := Interval.subsetI_fin.mp hsb
    simp only [ieval, hA1, hA2, hB1, hB2, Interval.mul_fin]
    refine Interval.subsetI_fin.mpr ⟨?_, ?_⟩
    · refine le_min (le_min (le_min ?_ ?_) ?_) ?_
      · exact qmin4_le k1 (by linarith) k3 (by linarith)
      · exact qmin4_le k1 (by linarith) (by linarith) k4
      · exact qmin4_le (by linarith) k2 k3 (by linarith)
      · exact qmin4_le (by linarith) k2 (by linarith) k4
    · refine max_le (max_le (max_le ?_ ?_) ?_) ?_
      · exact qmax4_ge k1 (by linarith) k3 (by linarith)
      · exact qmax4_ge k1 (by linarith) (by linarith) k4
      · exact qmax4_ge (by linarith) k2 k3 (by linarith)
      · exact qmax4_ge (by linarith) k2 (by linarith) k4
  | min a b iha ihb =>
    intro hwf1 hwf2
    simp only [ievalWF, Bool.and_eq_true] at hwf1 hwf2
    obtain ⟨⟨hwa1, hwb1⟩, _⟩ := hwf1
    obtain ⟨⟨hwa2, hwb2⟩, _⟩ := hwf2
    have hsa := iha hwa1 hwa2
    have hsb := ihb hwb1 hwb2
    rcases Interval.fv_iff.mp (ieval_fv hX1 hY1 hZ1 a hwa1) with
      ⟨a1, b1, hA1, hl1⟩
    rcases Interval.fv_iff.mp (ieval_fv hX2 hY2 hZ2 a hwa2) with
      ⟨a2, b2, hA2, hl2⟩
    rcases Interval.fv_iff.mp (ieval_fv hX1 hY1 hZ1 b hwb1) with
      ⟨c1, d1, hB1, hm1⟩
    rcases Interval.fv_iff.mp (ieval_fv hX2 hY2 hZ2 b hwb2) with
      ⟨c2, d2, hB2, hm2⟩
    rw [hA1, hA2] at hsa
    rw [hB1, hB2] at hsb
    obtain ⟨k1, k2⟩ := Interval.subsetI_fin.mp hsa
    obtain ⟨k3, k4⟩ := Interval.subsetI_fin.mp hsb
    simp only [ieval, hA1, hA2, hB1, hB2, Interval.min_choice_fin_val]
    exact Interval.subsetI_fin.mpr
      ⟨min_le_min k1 k3, min_le_min k2 k4⟩
  | max a b iha ihb =>
    intro hwf1 hwf2
    simp only [ievalWF, Bool.and_eq_true] at hwf1 hwf2
    obtain ⟨⟨hwa1, hwb1⟩, _⟩ := hwf1
    obtain ⟨⟨hwa2, hwb2⟩, _⟩ := hwf2
    have hsa := iha hwa1 hwa2
    have hsb := ihb hwb1 hwb2
    rcases Interval.fv_iff.mp (ieval_fv hX1 hY1 hZ1 a hwa1) with
      ⟨a1, b1, hA1, hl1⟩
    rcases Interval.fv_iff.mp (ieval_fv hX2 hY2 hZ2 a hwa2) with
      ⟨a2, b2, hA2, hl2⟩
    rcases Interval.fv_iff.mp (ieval_fv hX1 hY1 hZ1 b hwb1) with
      ⟨c1, d1, hB1, hm1⟩
    rcases Interval.fv_iff.mp (ieval_fv hX2 hY2 hZ2 b hwb2) with
      ⟨c2, d2, hB2, hm2⟩
    rw [hA1, hA2] at hsa
    rw [hB1, hB2] at hsb
    obtain ⟨k1, k2⟩ := Interval.subsetI_fin.mp hsa
    obtain ⟨k3, k4⟩ := Interval.subsetI_fin.mp hsb
    simp only [ieval, hA1, hA2, hB1, hB2, Interval.max_choice_fin_val]
    exact Interval.subsetI_fin.mpr
      ⟨max_le_max k1 k3, max_le_max k2 k4⟩

end Expr

namespace Expr

lemma subdivEval_zero (e : Expr) (X' Y' Z' : Interval) :
    subdivEval e X' Y' Z' 0 = (ieval X' Y' Z' e).1 := rfl

lemma subdivWF_zero (e : Expr) (X' Y' Z' : Interval) :
    subdivWF e X' Y' Z' 0 = ievalWF X' Y' Z' e := rfl

lemma subdivEval_succ (e : Expr) (X' Y' Z' : Interval) (k : Nat) :
    subdivEval e X' Y' Z' (k+1) =
      if F32.le (F32.sub Y'.upper Y'.lower) (F32.sub X'.upper X'.lower) &&
          F32.le (F32.sub Z'.upper Z'.lower) (F32.sub X'.upper X'.lower) then
        (subdivEval e ⟨X'.lower,
            F32.add X'.lower (F32.half (F32.sub X'.upper X'.lower))⟩
          Y' Z' k).hull
        (subdivEval e ⟨F32.add X'.lower (F32.half (F32.sub X'.upper X'.lower)),
            X'.upper⟩ Y' Z' k)
      else if F32.le (F32.sub Z'.upper Z'.lower)
          (F32.sub Y'.upper Y'.lower) then
        (subdivEval e X' ⟨Y'.lower,
            F32.add Y'.lower (F32.half (F32.sub Y'.upper Y'.lower))⟩
          Z' k).hull
        (subdivEval e X'
          ⟨F32.add Y'.lower (F32.half (F32.sub Y'.upper Y'.lower)),
            Y'.upper⟩ Z' k)
      else
        (subdivEval e X' Y' ⟨Z'.lower,
            F32.add Z'.lower (F32.half (F32.sub Z'.upper Z'.lower))⟩ k).hull
        (subdivEval e X' Y'
          ⟨F32.add Z'.lower (F32.half (F32.sub Z'.upper Z'.lower)),
            Z'.upper⟩ k) := rfl

lemma subdivWF_succ (e : Expr) (X' Y' Z' : Interval) (k : Nat) :
    subdivWF e X' Y' Z' (k+1) =
      (if F32.le (F32.sub Y'.upper Y'.lower) (F32.sub X'.upper X'.lower) &&
          F32.le (F32.sub Z'.upper Z'.lower) (F32.sub X'.upper X'.lower) then
        subdivWF e ⟨X'.lower,
            F32.add X'.lower (F32.half (F32.sub X'.upper X'.lower))⟩
          Y' Z' k &&
        subdivWF e ⟨F32.add X'.lower (F32.half (F32.sub X'.upper X'.lower)),
            X'.upper⟩ Y' Z' k
      else if F32.le (F32.sub Z'.upper Z'.lower)
          (F32.sub Y'.upper Y'.lower) then
        subdivWF e X' ⟨Y'.lower,
            F32.add Y'.lower (F32.half (F32.sub Y'.upper Y'.lower))⟩ Z' k &&
        subdivWF e X'
          ⟨F32.add Y'.lower (F32.half (F32.sub Y'.upper Y'.lower)),
            Y'.upper⟩ Z' k
      else
        subdivWF e X' Y' ⟨Z'.lower,
            F32.add Z'.lower (F32.half (F32.sub Z'.upper Z'.lower))⟩ k &&
        subdivWF e X' Y'
          ⟨F32.add Z'.lower (F32.half (F32.sub Z'.upper Z'.lower)),
            Z'.upper⟩ k) := rfl

/-- Over finite valid inputs, a well-formed subdivided evaluation yields a
finite valid interval. -/
lemma subdiv_fv : ∀ (k : Nat) (e : Expr) (X' Y' Z' : Interval),
    X'.fv = true → Y'.fv = true → Z'.fv = true →
    subdivWF e X' Y' Z' k = true →
    (subdivEval e X' Y' Z' k).fv = true := by
  intro k
  induction k with
  | zero =>
    intro e X' Y' Z' hX hY hZ hwf
    rw [subdivEval_zero]
    exact ieval_fv hX hY hZ e hwf
  | succ k ih =>
    intro e X' Y' Z' hX hY hZ hwf
    rcases Interval.fv_iff.mp hX with ⟨xa, xb, hXe, hxab⟩
    rcases Interval.fv_iff.mp hY with ⟨ya, yb, hYe, hyab⟩
    rcases Interval.fv_iff.mp hZ with ⟨za, zb, hZe, hzab⟩
    subst hXe
    subst hYe
    subst hZe
    rw [subdivWF_succ] at hwf
    rw [subdivEval_succ]
    simp only [Interval.lower_mk, Interval.upper_mk, F32.sub_fin_fin,
      F32.half_fin, F32.add_fin_fin] at hwf ⊢
    split_ifs at hwf ⊢ with h1 h2
    · rw [Bool.and_eq_true] at hwf
      obtain ⟨hw1, hw2⟩ := hwf
      exact Interval.hull_fv
        (ih e _ _ _ (Interval.fv_iff.mpr ⟨_, _, rfl, by linarith⟩) hY hZ hw1)
        (ih e _ _ _ (Interval.fv_iff.mpr ⟨_, _, rfl, by linarith⟩) hY hZ hw2)
    · rw [Bool.and_eq_true] at hwf
      obtain ⟨hw1, hw2⟩ := hwf
      exact Interval.hull_fv
        (ih e _ _ _ hX (Interval.fv_iff.mpr ⟨_, _, rfl, by linarith⟩) hZ hw1)
        (ih e _ _ _ hX (Interval.fv_iff.mpr ⟨_, _, rfl, by linarith⟩) hZ hw2)
    · rw [Bool.and_eq_true] at hwf
      obtain ⟨hw1, hw2⟩ := hwf
      exact Interval.hull_fv
        (ih e _ _ _ hX hY (Interval.fv_iff.mpr ⟨_, _, rfl, by linarith⟩) hw1)
        (ih e _ _ _ hX hY (Interval.fv_iff.mpr ⟨_, _, rfl, by linarith⟩) hw2)

end Expr

/-- C9, counterexample: the claim as stated is false.  For
`E = min(sqrt X, 5)` over `X = [-2, 1]`, `Y = Z = [0, 0]`, direct evaluation
(depth 0) yields `[0, 1]`, but depth 1 bisects `X` at `-1/2`; the left-half
evaluation produces `min((NaN,NaN), [5,5]) = [5,5]`, and the hull of
`[5,5]` and `[0,1]` is `[0, 5]`, which is not contained in `[0, 1]`. -/
theorem C9_counterexample :
    Expr.subdivEval (Expr.min (Expr.sqrt Expr.X) (Expr.const 5))
      ⟨F32.fin (-2), F32.fin 1⟩ ⟨F32.fin 0, F32.fin 0⟩
      ⟨F32.fin 0, F32.fin 0⟩ 1 = ⟨F32.fin 0, F32.fin 5⟩ ∧
    Expr.subdivEval (Expr.min (Expr.sqrt Expr.X) (Expr.const 5))
      ⟨F32.fin (-2), F32.fin 1⟩ ⟨F32.fin 0, F32.fin 0⟩
      ⟨F32.fin 0, F32.fin 0⟩ 0 = ⟨F32.fin 0, F32.fin 1⟩ ∧
    Interval.subsetI
      (Expr.subdivEval (Expr.min (Expr.sqrt Expr.X) (Expr.const 5))
        ⟨F32.fin (-2), F32.fin 1⟩ ⟨F32.fin 0, F32.fin 0⟩
        ⟨F32.fin 0, F32.fin 0⟩ 1)
      (Expr.subdivEval (Expr.min (Expr.sqrt Expr.X) (Expr.const 5))
        ⟨F32.fin (-2), F32.fin 1⟩ ⟨F32.fin 0, F32.fin 0⟩
        ⟨F32.fin 0, F32.fin 0⟩ 0) = false := by
  decide

/-- C9, amended: over finite valid input intervals, and provided every leaf
evaluation of both subdivision trees is free of NaN-bounded intermediate
intervals, subdivided evaluation at depth `k+1` is contained in subdivided
evaluation at depth `k`. -/
theorem C9_subdiv_tightening : ∀ (k : Nat) (e : Expr) (X' Y' Z' : Interval),
    X'.fv = true → Y'.fv = true → Z'.fv = true →
    Expr.subdivWF e X' Y' Z' (k+1) = true →
    Expr.subdivWF e X' Y' Z' k = true →
    (Expr.subdivEval e X' Y' Z' (k+1)).subsetI
      (Expr.subdivEval e X' Y' Z' k) = true := by
  intro k
  induction k with
  | zero =>
    intro e X' Y' Z' hX hY hZ h1 h0
    rcases Interval.fv_iff.mp hX with ⟨xa, xb, hXe, hxab⟩
    rcases Interval.fv_iff.mp hY with ⟨ya, yb, hYe, hyab⟩
    rcases Interval.fv_iff.mp hZ with ⟨za, zb, hZe, hzab⟩
    subst hXe
    subst hYe
    subst hZe
    rw [Expr.subdivWF_zero] at h0
    rw [Expr.subdivWF_succ] at h1
    rw [Expr.subdivEval_succ, Expr.subdivEval_zero]
    simp only [Interval.lower_mk, Interval.upper_mk, F32.sub_fin_fin,
      F32.half_fin, F32.add_fin_fin, Expr.subdivWF_zero,
      Expr.subdivEval_zero] at h1 ⊢
    split_ifs at h1 ⊢ with hc1 hc2
    · rw [Bool.and_eq_true] at h1
      obtain ⟨hw1, hw2⟩ := h1
      have hfv1 : Interval.fv ⟨F32.fin xa, F32.fin (xa + (xb - xa) / 2)⟩ =
          true := Interval.fv_iff.mpr ⟨_, _, rfl, by linarith⟩
      have hfv2 : Interval.fv ⟨F32.fin (xa + (xb - xa) / 2), F32.fin xb⟩ =
          true := Interval.fv_iff.mpr ⟨_, _, rfl, by linarith⟩
      refine Interval.hull_subsetI (Expr.ieval_fv hfv1 hY hZ e hw1)
        (Expr.ieval_fv hfv2 hY hZ e hw2) (Expr.ieval_fv hX hY hZ e h0) ?_ ?_
      · exact Expr.iso hX hY hZ hfv1 hY hZ
          (Interval.subsetI_fin.mpr ⟨le_refl xa, by linarith⟩)
          (Interval.subsetI_refl_fv hY) (Interval.subsetI_refl_fv hZ)
          e h0 hw1
      · exact Expr.iso hX hY hZ hfv2 hY hZ
          (Interval.subsetI_fin.mpr ⟨by linarith, le_refl xb⟩)
          (Interval.subsetI_refl_fv hY) (Interval.subsetI_refl_fv hZ)
          e h0 hw2
    · rw [Bool.and_eq_true] at h1
      obtain ⟨hw1, hw2⟩ := h1
      have hfv1 : Interval.fv ⟨F32.fin ya, F32.fin (ya + (yb - ya) / 2)⟩ =
          true := Interval.fv_iff.mpr ⟨_, _, rfl, by linarith⟩
      have hfv2 : Interval.fv ⟨F32.fin (ya + (yb - ya) / 2), F32.fin yb⟩ =
          true := Interval.fv_iff.mpr ⟨_, _, rfl, by linarith⟩
      refine Interval.hull_subsetI (Expr.ieval_fv hX hfv1 hZ e hw1)
        (Expr.ieval_fv hX hfv2 hZ e hw2) (Expr.ieval_fv hX hY hZ e h0) ?_ ?_
      · exact Expr.iso hX hY hZ hX hfv1 hZ
          (Interval.subsetI_refl_fv hX)
          (Interval.subsetI_fin.mpr ⟨le_refl ya, by linarith⟩)
          (Interval.subsetI_refl_fv hZ) e h0 hw1
      · exact Expr.iso hX hY hZ hX hfv2 hZ
          (Interval.subsetI_refl_fv hX)
          (Interval.subsetI_fin.mpr ⟨by linarith, le_refl yb⟩)
          (Interval.subsetI_refl_fv hZ) e h0 hw2
    · rw [Bool.and_eq_true] at h1
      obtain ⟨hw1, hw2⟩ := h1
      have hfv1 : Interval.fv ⟨F32.fin za, F32.fin (za + (zb - za) / 2)⟩ =
          true := Interval.fv_iff.mpr ⟨_, _, rfl, by linarith⟩
      have hfv2 : Interval.fv ⟨F32.fin (za + (zb - za) / 2), F32.fin zb⟩ =
          true := Interval.fv_iff.mpr ⟨_, _, rfl, by linarith⟩
      refine Interval.hull_subsetI (Expr.ieval_fv hX hY hfv1 e hw1)
        (Expr.ieval_fv hX hY hfv2 e hw2) (Expr.ieval_fv hX hY hZ e h0) ?_ ?_
      · exact Expr.iso hX hY hZ hX hY hfv1
          (Interval.subsetI_refl_fv hX) (Interval.subsetI_refl_fv hY)
          (Interval.subsetI_fin.mpr ⟨le_refl za, by linarith⟩) e h0 hw1
      · exact Expr.iso hX hY hZ hX hY hfv2
          (Interval.subsetI_refl_fv hX) (Interval.subsetI_refl_fv hY)
          (Interval.subsetI_fin.mpr ⟨by linarith, le_refl zb⟩) e h0 hw2
  | succ k ih =>
    intro e X' Y' Z' hX hY hZ h1 h0
    rcases Interval.fv_iff.mp hX with ⟨xa, xb, hXe, hxab⟩
    rcases Interval.fv_iff.mp hY with ⟨ya, yb, hYe, hyab⟩
    rcases Interval.fv_iff.mp hZ with ⟨za, zb, hZe, hzab⟩
    subst hXe
    subst hYe
    subst hZe
    rw [Expr.subdivWF_succ] at h1 h0
    rw [Expr.subdivEval_succ e _ _ _ k, Expr.subdivEval_succ e _ _ _ (k+1)]
    simp only [Interval.lower_mk, Interval.upper_mk, F32.sub_fin_fin,
      F32.half_fin, F32.add_fin_fin] at h1 h0 ⊢
    split_ifs at h1 h0 ⊢ with hc1 hc2
    · rw [Bool.and_eq_true] at h1 h0
      obtain ⟨hw1, hw2⟩ := h1
      obtain ⟨hv1, hv2⟩ := h0
      have hfv1 : Interval.fv ⟨F32.fin xa, F32.fin (xa + (xb - xa) / 2)⟩ =
          true := Interval.fv_iff.mpr ⟨_, _, rfl, by linarith⟩
      have hfv2 : Interval.fv ⟨F32.fin (xa + (xb - xa) / 2), F32.fin xb⟩ =
          true := Interval.fv_iff.mpr ⟨_, _, rfl, by linarith⟩
      exact Interval.hull_mono
        (Expr.subdiv_fv (k+1) e _ _ _ hfv1 hY hZ hw1)
        (Expr.subdiv_fv (k+1) e _ _ _ hfv2 hY hZ hw2)
        (Expr.subdiv_fv k e _ _ _ hfv1 hY hZ hv1)
        (Expr.subdiv_fv k e _ _ _ hfv2 hY hZ hv2)
        (ih e _ _ _ hfv1 hY hZ hw1 hv1)
        (ih e _ _ _ hfv2 hY hZ hw2 hv2)
    · rw [Bool.and_eq_true] at h1 h0
      obtain ⟨hw1, hw2⟩ := h1
      obtain ⟨hv1, hv2⟩ := h0
      have hfv1 : Interval.fv ⟨F32.fin ya, F32.fin (ya + (yb - ya) / 2)⟩ =
          true := Interval.fv_iff.mpr ⟨_, _, rfl, by linarith⟩
      have hfv2 : Interval.fv ⟨F32.fin (ya + (yb - ya) / 2), F32.fin yb⟩ =
          true := Interval.fv_iff.mpr ⟨_, _, rfl, by linarith⟩
      exact Interval.hull_mono
        (Expr.subdiv_fv (k+1) e _ _ _ hX hfv1 hZ hw1)
        (Expr.subdiv_fv (k+1) e _ _ _ hX hfv2 hZ hw2)
        (Expr.subdiv_fv k e _ _ _ hX hfv1 hZ hv1)
        (Expr.subdiv_fv k e _ _ _ hX hfv2 hZ hv2)
        (ih e _ _ _ hX hfv1 hZ hw1 hv1)
        (ih e _ _ _ hX hfv2 hZ hw2 hv2)
    · rw [Bool.and_eq_true] at h1 h0
      obtain ⟨hw1, hw2⟩ := h1
      obtain ⟨hv1, hv2⟩ := h0
      have hfv1 : Interval.fv ⟨F32.fin za, F32.fin (za + (zb - za) / 2)⟩ =
          true := Interval.fv_iff.mpr ⟨_, _, rfl, by linarith⟩
      have hfv2 : Interval.fv ⟨F32.fin (za + (zb - za) / 2), F32.fin zb⟩ =
          true := Interval.fv_iff.mpr ⟨_, _, rfl, by linarith⟩
      exact Interval.hull_mono
        (Expr.subdiv_fv (k+1) e _ _ _ hX hY hfv1 hw1)
        (Expr.subdiv_fv (k+1) e _ _ _ hX hY hfv2 hw2)
        (Expr.subdiv_fv k e _ _ _ hX hY hfv1 hv1)
        (Expr.subdiv_fv k e _ _ _ hX hY hfv2 hv2)
        (ih e _ _ _ hX hY hfv1 hw1 hv1)
        (ih e _ _ _ hX hY hfv2 hw2 hv2)

/-- C9, witness: for `E = X + Y` over `X = [0,1]`, `Y = [2,4]`,
`Z = [0,0]`, depth-1 evaluation is contained in depth-0 evaluation. -/
theorem C9_witness :
    Expr.subdivWF (Expr.add Expr.X Expr.Y) ⟨F32.fin 0, F32.fin 1⟩
      ⟨F32.fin 2, F32.fin 4⟩ ⟨F32.fin 0, F32.fin 0⟩ 1 = true ∧
    Interval.subsetI
      (Expr.subdivEval (Expr.add Expr.X Expr.Y) ⟨F32.fin 0, F32.fin 1⟩
        ⟨F32.fin 2, F32.fin 4⟩ ⟨F32.fin 0, F32.fin 0⟩ 1)
      (Expr.subdivEval (Expr.add Expr.X Expr.Y) ⟨F32.fin 0, F32.fin 1⟩
        ⟨F32.fin 2, F32.fin 4⟩ ⟨F32.fin 0, F32.fin 0⟩ 0) = true :=
  ⟨by decide,
   C9_subdiv_tightening 0 (Expr.add Expr.X Expr.Y) ⟨F32.fin 0, F32.fin 1⟩
     ⟨F32.fin 2, F32.fin 4⟩ ⟨F32.fin 0, F32.fin 0⟩
     (by decide) (by decide) (by decide) (by decide) (by decide)⟩

end Fidget
